import Mathlib

/-!
Verification development for the To-Do reconciliation and derivation engine of
the real-estate dashboard (`TodoManager` in `google_drive_module.py`).

The Python code is shallowly embedded below.  Conventions:

* Python `datetime.date` values are modelled by the `Date` structure together
  with a proleptic-Gregorian ordinal (`toOrd`, rata die); Python date
  comparison and `timedelta` arithmetic are modelled on the ordinal.
* Python strings are Lean `String`s; `str.strip`/`str.upper` are modelled for
  ASCII data by `pyTrim`/`pyUpper`; `in` (substring) by `containsSub`.
* `strptime` with the format lists appearing in the source is modelled by
  `parseDMY` / `parseYMD` / the `WithTime` variants: split on the separator,
  read decimal fields of the widths `strptime` accepts, and require calendar
  validity (Python's `date` constructor validates and is bounded to years
  1..9999).
* The Python `dict` built as `{key(item): item for item in todo_list}`
  (last binding wins, iteration in first-insertion order) is modelled by
  `lookupOld` (value at a key) and `oldItems` (iteration order).
* `set(checkout_dates_to_check)` iterates in an implementation-defined order;
  the embedding takes the enumeration function `pyset` as a parameter and
  theorems assume only `PySetOK pyset` (it deduplicates and preserves
  membership).  Concrete evaluations use `pysetModel`.
* `list.sort` (Timsort) is a stable sort by a total key; every stable sort by
  the same key computes the same list, so it is modelled by `insertionSort`
  with the embedded key order `taskKeyLe`.
* External persistence (`save_list_to_drive`) does not touch the active list
  and is outside the model.
-/

/-! ### Python string primitives (ASCII model) -/

def upChar (c : Char) : Char :=
  if 97 ≤ c.toNat ∧ c.toNat ≤ 122 then Char.ofNat (c.toNat - 32) else c

/-- Models Python `str.upper()` on the ASCII data this system handles. -/
def pyUpper (s : String) : String := ⟨s.data.map upChar⟩

def isWsChar (c : Char) : Bool :=
  c.toNat = 32 || c.toNat = 9 || c.toNat = 10 || c.toNat = 13 || c.toNat = 11 || c.toNat = 12

/-- Models Python `str.strip()`. -/
def pyTrim (s : String) : String :=
  ⟨((s.data.dropWhile isWsChar).reverse.dropWhile isWsChar).reverse⟩

/-- Models the Python substring test `pat in hay`. -/
def containsSub (hay pat : String) : Bool := decide (pat.data <:+: hay.data)

def splitOnChar (sep : Char) : List Char → List (List Char)
  | [] => [[]]
  | c :: cs =>
    let rest := splitOnChar sep cs
    if c = sep then [] :: rest
    else match rest with
      | [] => [[c]]
      | r :: rs => (c :: r) :: rs

def digitVal (c : Char) : Option Nat :=
  if 48 ≤ c.toNat ∧ c.toNat ≤ 57 then some (c.toNat - 48) else none

def parseNatChars (l : List Char) : Option Nat :=
  match l with
  | [] => none
  | _ =>
    l.foldl (fun acc c =>
      match acc, digitVal c with
      | some n, some d => some (n * 10 + d)
      | _, _ => none) (some 0)

/-- Python strict lexicographic string comparison (by code point). -/
def strLtChars : List Char → List Char → Bool
  | [], [] => false
  | [], _ :: _ => true
  | _ :: _, [] => false
  | a :: as, b :: bs =>
    if a.toNat < b.toNat then true
    else if b.toNat < a.toNat then false
    else strLtChars as bs

def strLtB (a b : String) : Bool := strLtChars a.data b.data

/-! ### Calendar: Python `datetime.date` -/

structure Date where
  y : Nat
  m : Nat
  d : Nat
deriving DecidableEq, Repr

def isLeap (y : Nat) : Bool := y % 4 = 0 && (y % 100 ≠ 0 || y % 400 = 0)

def daysInMonth (y m : Nat) : Nat :=
  if m = 2 then (if isLeap y then 29 else 28)
  else if m = 4 ∨ m = 6 ∨ m = 9 ∨ m = 11 then 30
  else 31

def daysBeforeMonth (y : Nat) : Nat → Nat
  | 0 => 0
  | 1 => 0
  | m + 1 => daysBeforeMonth y m + daysInMonth y (m + 1 - 1)

/-- Rata-die ordinal of a date; Python date comparison and `timedelta(days=k)`
arithmetic are modelled through this ordinal. -/
def toOrd (dt : Date) : Int :=
  let p : Int := (dt.y : Int) - 1
  365 * p + p / 4 - p / 100 + p / 400 + (daysBeforeMonth dt.y dt.m : Int) + (dt.d : Int)

/-- Calendar successor (`date + timedelta(days=1)`). -/
def nextDay (dt : Date) : Date :=
  if dt.d < daysInMonth dt.y dt.m then ⟨dt.y, dt.m, dt.d + 1⟩
  else if dt.m < 12 then ⟨dt.y, dt.m + 1, 1⟩
  else ⟨dt.y + 1, 1, 1⟩

/-- A calendar-consistent field assignment (ignoring Python's year cap). -/
def validCal (dt : Date) : Bool :=
  1 ≤ dt.y && 1 ≤ dt.m && dt.m ≤ 12 && 1 ≤ dt.d && dt.d ≤ daysInMonth dt.y dt.m

/-- A value Python's `date` constructor accepts (years 1..9999). -/
def validDate (dt : Date) : Bool := validCal dt && dt.y ≤ 9999

def digitChar (k : Nat) : Char := Char.ofNat (48 + k % 10)

/-- Models `date.isoformat()`: `YYYY-MM-DD`, zero padded. -/
def isoStr (dt : Date) : String :=
  ⟨[digitChar (dt.y / 1000), digitChar (dt.y / 100), digitChar (dt.y / 10), digitChar dt.y,
    '-', digitChar (dt.m / 10), digitChar dt.m, '-', digitChar (dt.d / 10), digitChar dt.d]⟩

def monthAbbr (m : Nat) : String :=
  match m with
  | 1 => "Jan" | 2 => "Feb" | 3 => "Mar" | 4 => "Apr" | 5 => "May" | 6 => "Jun"
  | 7 => "Jul" | 8 => "Aug" | 9 => "Sep" | 10 => "Oct" | 11 => "Nov" | 12 => "Dec"
  | _ => ""

/-- Models `date.strftime('%d-%b')` as used in reason strings. -/
def fmtDayMon (dt : Date) : String :=
  ⟨[digitChar (dt.d / 10), digitChar dt.d, '-']⟩ ++ monthAbbr dt.m

/-! ### `strptime` models for the format lists in the source -/

def fieldNat (width : Nat) (f : List Char) : Option Nat :=
  if f.length = 0 ∨ width < f.length then none else parseNatChars f

def mkDateChecked (yv mv dv : Nat) : Option Date :=
  if validDate ⟨yv, mv, dv⟩ then some ⟨yv, mv, dv⟩ else none

/-- `%d<sep>%m<sep>%Y` (formats `'%d-%m-%Y'`, `'%d.%m.%Y'`, `'%d/%m/%Y'`). -/
def parseDMY (sep : Char) (s : String) : Option Date :=
  match splitOnChar sep s.data with
  | [df, mf, yf] =>
    match fieldNat 2 df, fieldNat 2 mf, fieldNat 4 yf with
    | some dv, some mv, some yv => mkDateChecked yv mv dv
    | _, _, _ => none
  | _ => none

/-- `%Y-%m-%d`. -/
def parseYMD (s : String) : Option Date :=
  match splitOnChar '-' s.data with
  | [yf, mf, df] =>
    match fieldNat 4 yf, fieldNat 2 mf, fieldNat 2 df with
    | some yv, some mv, some dv => mkDateChecked yv mv dv
    | _, _, _ => none
  | _ => none

def validHM (hf mf : List Char) : Bool :=
  match fieldNat 2 hf, fieldNat 2 mf with
  | some hv, some mv => hv < 24 && mv < 60
  | _, _ => false

/-- `%Y-%m-%d %H:%M` (the `.date()` projection of the parsed datetime). -/
def parseYMD_HM (s : String) : Option Date :=
  match splitOnChar ' ' s.data with
  | [ds, ts] =>
    match splitOnChar ':' ts with
    | [hf, mf] => if validHM hf mf then parseYMD ⟨ds⟩ else none
    | _ => none
  | _ => none

/-- `%d/%m/%Y %H:%M:%S` (the `.date()` projection of the parsed datetime). -/
def parseDMY_HMS (s : String) : Option Date :=
  match splitOnChar ' ' s.data with
  | [ds, ts] =>
    match splitOnChar ':' ts with
    | [hf, mf, sf] =>
      match fieldNat 2 sf with
      | some sv => if validHM hf mf && sv < 62 then parseDMY '/' ⟨ds⟩ else none
      | none => none
    | _ => none
  | _ => none

def parseFirst (fmts : List (String → Option Date)) (s : String) : Option Date :=
  match fmts with
  | [] => none
  | f :: fs =>
    match f s with
    | some dt => some dt
    | none => parseFirst fs s

/-- The MO_DATA format list `('%Y-%m-%d %H:%M', '%d/%m/%Y %H:%M:%S', '%Y-%m-%d', '%d/%m/%Y')`. -/
def parseMoDate (s : String) : Option Date :=
  parseFirst [parseYMD_HM, parseDMY_HMS, parseYMD, parseDMY '/'] s

/-- The UT_DATA format list `('%d/%m/%Y %H:%M:%S', '%d-%m-%Y', '%d/%m/%Y')`. -/
def parseUtDate (s : String) : Option Date :=
  parseFirst [parseDMY_HMS, parseDMY '-', parseDMY '/'] s

namespace Todo

/-! ### Task model (`TodoManager._create_todo_item`, google_drive_module.py:2553) -/

/-- The four fixed checkbox flags of `item['checked']`. -/
structure Checked where
  telegram : Bool
  email : Bool
  ut_data : Bool
  write : Bool
deriving DecidableEq, Repr

/-- `all(x['checked'].values())`. -/
def allComplete (c : Checked) : Bool := c.telegram && c.email && c.ut_data && c.write

structure Task where
  ap_code : String
  reason : String
  due_date : Option String
  realtor : Option String
  status : String
  manual : Bool
  checked : Checked
  check_time : Option String
  note : String
  last_transaction_date : Option String
  last_transaction_type : Option String
  last_ut_reading_date : Option String
deriving DecidableEq, Repr

/-- `TodoManager._create_todo_item` (google_drive_module.py:2553). -/
def _create_todo_item (ap_code reason : String) (due_date : Option String)
    (realtor : Option String) (status : String) : Task :=
  { ap_code := ap_code
    reason := reason
    due_date := due_date
    realtor := realtor
    status := status
    manual := false
    checked := ⟨false, false, false, false⟩
    check_time := none
    note := ""
    last_transaction_date := none
    last_transaction_type := none
    last_ut_reading_date := none }

/-- The string key `item['ap_code'] + (item.get('due_date') or '')` used by
`generate_list` and `add_manual_item` (google_drive_module.py:2196, 2302, 2424). -/
def concatKey (t : Task) : String := t.ap_code ++ (t.due_date.getD "")

/-- The (apartment_code, due_date) identity pair the specification speaks about. -/
def pairKey (t : Task) : String × Option String := (t.ap_code, t.due_date)

/-- The user-owned mutable fields: checkbox state, note, check time. -/
def mutFields (t : Task) : Checked × String × Option String := (t.checked, t.note, t.check_time)

/-! ### `TodoManager._sort_list` (google_drive_module.py:2570) -/

def boolLtB (a b : Bool) : Bool := !a && b

def dueOrEmpty (t : Task) : String :=
  match t.due_date with
  | none => ""
  | some s => if s = "" then "" else s

/-- The sort key tuple
`(all(x['checked'].values()), x.get('due_date') is None, x.get('due_date') or '')`
compared as Python compares tuples (lexicographically; `False < True`). -/
def taskKeyLe (a b : Task) : Bool :=
  let a1 := allComplete a.checked
  let b1 := allComplete b.checked
  if a1 ≠ b1 then boolLtB a1 b1
  else
    let a2 := a.due_date.isNone
    let b2 := b.due_date.isNone
    if a2 ≠ b2 then boolLtB a2 b2
    else !(strLtB (dueOrEmpty b) (dueOrEmpty a))

/-- `self.todo_list.sort(key=...)`: a stable sort by `taskKeyLe`; Timsort and
insertion sort agree on every list for this total key order. -/
def sortList (l : List Task) : List Task :=
  List.insertionSort (fun a b => taskKeyLe a b = true) l

/-! ### Data source tables (`sheet_manager.all_data`) -/

structure Table where
  header : List String
  data : List (List String)
deriving DecidableEq, Repr

/-- The three tables `generate_list` requires; `none` models the sheet name
missing from `all_data`. -/
structure Sheets where
  apartments : Option Table
  mo : Option Table
  ut : Option Table
deriving DecidableEq, Repr

/-- `header.index(name)` raises `ValueError` when absent; modelled as `Option`. -/
def colIndex (header : List String) (name : String) : Option Nat :=
  header.findIdx? (fun h => h = name)

/-! ### Transaction index (google_drive_module.py:2144-2176) -/

structure Trans where
  date : Date
  ttype : String
  specific : String
deriving DecidableEq, Repr

/-- One MO_DATA row parsed into `(ap_code, transaction)` if accepted
(google_drive_module.py:2155-2173). -/
def parseMoRow (codeCol dateCol typeCol specCol : Nat) (row : List String) :
    Option (String × Trans) :=
  if row.length > max (max codeCol dateCol) (max typeCol specCol) then
    let ap := pyTrim (row.getD codeCol "")
    if ap = "" then none
    else
      match parseMoDate (pyTrim (row.getD dateCol "")) with
      | some dt => some (ap, ⟨dt, pyTrim (row.getD typeCol ""), pyTrim (row.getD specCol "")⟩)
      | none => none
  else none

/-- Per-apartment transaction list: rows grouped in order, then
`sort(key=lambda x: x['date'], reverse=True)` (stable descending). -/
def transFor (parsed : List (String × Trans)) (ap : String) : List Trans :=
  List.insertionSort (fun a b => (toOrd b.date ≤ toOrd a.date))
    ((parsed.filter (fun p => p.1 = ap)).map Prod.snd)

/-! ### Meter reading index (google_drive_module.py:2178-2194) -/

/-- One UT_DATA row parsed into `(ap_code, reading_date)` if accepted; a row
access past the end raises `IndexError`, caught by the per-row handler. -/
def parseUtRow (codeCol dateCol : Nat) (row : List String) : Option (String × Date) :=
  match row.get? codeCol, row.get? dateCol with
  | some ap, some ds =>
    match parseUtDate ds with
    | some dt => some (ap, dt)
    | none => none
  | _, _ => none

/-- `last_ut_dates[ap_code]`: the maximum reading date seen for the code
(strictly later dates replace the stored one). -/
def utFor (parsed : List (String × Date)) (ap : String) : Option Date :=
  (parsed.filter (fun p => p.1 = ap)).foldl
    (fun acc p =>
      match acc with
      | none => some p.2
      | some cur => if toOrd p.2 > toOrd cur then some p.2 else some cur) none

/-! ### Rent-due matching (google_drive_module.py:2250-2259) -/

/-- `'CHECK-IN' in trans['type'].upper() or 'RENT COLLECT' in trans['specific'].upper()`. -/
def isRentPayment (t : Trans) : Bool :=
  containsSub (pyUpper t.ttype) "CHECK-IN" || containsSub (pyUpper t.specific) "RENT COLLECT"

/-- `due_date - timedelta(days=9) <= trans['date'] <= due_date + timedelta(days=5)`. -/
def inPayWindow (due : Date) (t : Trans) : Bool :=
  decide (toOrd due - 9 ≤ toOrd t.date) && decide (toOrd t.date ≤ toOrd due + 5)

/-- The first rent-related transaction matching the asymmetric window (the
transaction list is already sorted most-recent-first). -/
def findPaymentDate (txs : List Trans) (due : Date) : Option Date :=
  (txs.find? (fun t => isRentPayment t && inPayWindow due t)).map (fun t => t.date)

/-- The due-date enumeration
`while current_date <= end_date: if current_date.day == payment_day: append`
(google_drive_module.py:2243-2248), with explicit fuel for the day-by-day walk.
The walk is total here because the model's dates are unbounded, whereas
Python's `current_date += timedelta(days=1)` raises an uncaught OverflowError
stepping past `date.max` (9999-12-31); every theorem built on this enumeration
therefore restricts the window to end strictly before 9999-12-31 (or bounds
the end year), keeping the model inside the region where the two agree. -/
def dueDatesFuel (payday : Nat) (endD : Date) : Nat → Date → List Date
  | 0, _ => []
  | fuel + 1, cur =>
    if toOrd cur ≤ toOrd endD then
      (if cur.d = payday then [cur] else []) ++ dueDatesFuel payday endD fuel (nextDay cur)
    else []

def dueDates (startD endD : Date) (payday : Nat) : List Date :=
  dueDatesFuel payday endD ((toOrd endD - toOrd startD).toNat + 1) startD

/-! ### Per-row derivation (google_drive_module.py:2206-2297) -/

structure GenCtx where
  startD : Date
  endD : Date
  trans : List (String × Trans)
  uts : List (String × Date)
  apRows : List (List String)
  apCodeCol : Nat
  apStartCol : Nat
  apEndCol : Nat
  apRealtorCol : Nat
  apCheckoutCol : Nat

def dateInWindow (ctx : GenCtx) (d : Date) : Bool :=
  decide (toOrd ctx.startD ≤ toOrd d) && decide (toOrd d ≤ toOrd ctx.endD)

/-- "NEW LOGIC (Part 1)": is there an upcoming check-out for this apartment
(google_drive_module.py:2218-2233)? -/
def isUpcomingCheckout (ctx : GenCtx) (row : List String) : Bool :=
  (match row.get? ctx.apCheckoutCol with
   | some s =>
     if s ≠ "" then
       match parseDMY '.' s with
       | some d => dateInWindow ctx d
       | none => false
     else false
   | none => false) ||
  (match row.get? ctx.apEndCol with
   | some s =>
     if s ≠ "" then
       match parseDMY '-' s with
       | some d => dateInWindow ctx d
       | none => false
     else false
   | none => false)

/-- Context annotations shared by every task a row emits. -/
structure RowInfo where
  ap : String
  realtor : Option String
  lastTd : Option Date
  lastTt : Option String
  lastUt : Option Date

def withContext (ri : RowInfo) (t : Task) : Task :=
  { t with
    last_transaction_date := ri.lastTd.map isoStr
    last_transaction_type := ri.lastTt
    last_ut_reading_date := ri.lastUt.map isoStr }

/-- One rent task for an enumerated due date ("A. Check for Rent Tasks",
google_drive_module.py:2250-2276). -/
def rentItem (ri : RowInfo) (upcoming : Bool) (txs : List Trans) (due : Date) : Task :=
  withContext ri <|
    match findPaymentDate txs due with
    | some pd =>
      _create_todo_item ri.ap ("Rent due " ++ fmtDayMon due ++ ", Paid on " ++ fmtDayMon pd)
        (some (isoStr due)) ri.realtor "Paid"
    | none =>
      let reason := "Rent due on " ++ fmtDayMon due ++ " (UNPAID)"
      let reason := if upcoming then reason ++ " - 🚪 CHECK-OUT" else reason
      _create_todo_item ri.ap reason (some (isoStr due)) ri.realtor "Unpaid"

/-- "B. Check for upcoming Check-outs" (google_drive_module.py:2289-2297):
iterate the (deduplicated) candidate dates, emitting at most one check-out
task per apartment against the accumulated list. -/
def checkoutFold (ctx : GenCtx) (ri : RowInfo) (acc : List Task) : List Date → List Task
  | [] => acc
  | c :: cs =>
    let acc' :=
      if dateInWindow ctx c then
        if !(acc.any (fun item => item.ap_code = ri.ap && item.status = "Check-out")) then
          acc ++ [withContext ri
            (_create_todo_item ri.ap ("Check-out on " ++ fmtDayMon c) (some (isoStr c))
              ri.realtor "Check-out")]
        else acc
      else acc
    checkoutFold ctx ri acc' cs

/-- `if last_trans_type and 'CHECK-OUT' in last_trans_type.upper(): continue`
(google_drive_module.py:2235). -/
def isLastCheckout (lastTt : Option String) : Bool :=
  match lastTt with
  | some tt => containsSub (pyUpper tt) "CHECK-OUT"
  | none => false

/-- The `checkout_dates_to_check` list built from the END (`%d-%m-%Y`) and
CHECK_OUT (`%d.%m.%Y`) cells (google_drive_module.py:2281-2287). -/
def rowCheckoutDates (ctx : GenCtx) (row : List String) : List Date :=
  (match row.get? ctx.apEndCol with
   | some s => (parseDMY '-' s).toList
   | none => []) ++
  (match row.get? ctx.apCheckoutCol with
   | some s => (parseDMY '.' s).toList
   | none => [])

/-- The body of the apartments loop (google_drive_module.py:2206-2297). -/
def processRow (pyset : List Date → List Date) (ctx : GenCtx) (acc : List Task)
    (row : List String) : List Task :=
  match row.get? ctx.apCodeCol with
  | none => acc
  | some ap =>
    if ap = "" then acc
    else
      let txs := transFor ctx.trans ap
      let latest := txs.head?
      let ri : RowInfo :=
        { ap := ap
          realtor := some (row.getD ctx.apRealtorCol "Unknown")
          lastTd := latest.map (fun t => t.date)
          lastTt := latest.map (fun t => t.ttype)
          lastUt := utFor ctx.uts ap }
      let upcoming := isUpcomingCheckout ctx row
      if isLastCheckout ri.lastTt then acc
      else
        let acc1 :=
          match row.get? ctx.apStartCol with
          | none => acc
          | some ss =>
            match parseDMY '-' ss with
            | none => acc
            | some cstart =>
              acc ++ (dueDates ctx.startD ctx.endD cstart.d).map (rentItem ri upcoming txs)
        checkoutFold ctx ri acc1 (pyset (rowCheckoutDates ctx row))

def derivedRows (pyset : List Date → List Date) (ctx : GenCtx) : List Task :=
  ctx.apRows.foldl (processRow pyset ctx) []

/-! ### Old-state reconciliation (google_drive_module.py:2196, 2299-2312) -/

/-- The value the dict `old_state` holds at key `k` (last binding wins). -/
def lookupOld (old : List Task) (k : String) : Option Task :=
  (old.filter (fun t => concatKey t = k)).getLast?

/-- Key sequence of a Python dict: first-occurrence order, deduplicated. -/
def firstKeys : List String → List String
  | [] => []
  | k :: ks => k :: (firstKeys ks).filter (fun x => x ≠ k)

/-- `old_state.items()` in iteration order (values with last binding winning). -/
def oldItems (old : List Task) : List Task :=
  (firstKeys (old.map concatKey)).filterMap (lookupOld old)

/-- The merge loop body (google_drive_module.py:2301-2308): a derived task
matched by key adopts the old task's `checked`, `note`, `check_time`. -/
def mergeOld (old : List Task) (t : Task) : Task :=
  match lookupOld old (concatKey t) with
  | some o => { t with checked := o.checked, note := o.note, check_time := o.check_time }
  | none => t

/-- The manual re-add loop (google_drive_module.py:2310-2312): an old item is
re-added when it is manual and no task in `final_list` has its `ap_code`. -/
def addManuals (acc : List Task) (olds : List Task) : List Task :=
  olds.foldl (fun fl o =>
    if o.manual && !(fl.any (fun x => x.ap_code = o.ap_code)) then fl ++ [o] else fl) acc

/-! ### `TodoManager.generate_list` (google_drive_module.py:2131-2317) -/

/-- Column lookups of `generate_list` in order: `.error ()` models an uncaught
`ValueError` from `.index`; `.ok none` models the silent early returns. -/
def genCtx? (sheets : Sheets) (startD endD : Date) : Except Unit (Option GenCtx) :=
  match sheets.apartments, sheets.mo, sheets.ut with
  | some apT, some moT, some utT =>
    let hu := moT.header.map (fun h => pyUpper (pyTrim h))
    match colIndex hu "APARTMENT CODE", colIndex hu "SUBMISSION DATE",
          colIndex hu "TYPE OF MONEY TASK", colIndex hu "SPECIFIC MONEY TASK" with
    | some mc, some md, some mt, some ms =>
      let transParsed := moT.data.filterMap (parseMoRow mc md mt ms)
      match colIndex utT.header "Apartment Code", colIndex utT.header "Date of Reading" with
      | some uc, some ud =>
        let utParsed := utT.data.filterMap (parseUtRow uc ud)
        match colIndex apT.header "AP CODE", colIndex apT.header "START",
              colIndex apT.header "END", colIndex apT.header "REALTOR",
              colIndex apT.header "CHECK_OUT" with
        | some c0, some c1, some c2, some c3, some c4 =>
          .ok (some ⟨startD, endD, transParsed, utParsed, apT.data, c0, c1, c2, c3, c4⟩)
        | _, _, _, _, _ => .error ()
      | _, _ => .error ()
    | _, _, _, _ => .ok none
  | _, _, _ => .ok none

/-- The `new_list` of derived candidate tasks a `generate_list` call builds. -/
def derivedList (pyset : List Date → List Date) (sheets : Sheets) (startD endD : Date) :
    List Task :=
  match genCtx? sheets startD endD with
  | .ok (some ctx) => derivedRows pyset ctx
  | _ => []

/-- `TodoManager.generate_list`: derivation, key-matched merge, manual re-add,
sort.  `.error ()` models an exception escaping to the caller. -/
def generate_list (pyset : List Date → List Date) (sheets : Sheets) (startD endD : Date)
    (todo : List Task) : Except Unit (List Task) :=
  match genCtx? sheets startD endD with
  | .error e => .error e
  | .ok none => .ok todo
  | .ok (some ctx) =>
    .ok (sortList (addManuals ((derivedRows pyset ctx).map (mergeOld todo)) (oldItems todo)))

/-- The active list after a call (an escaping exception leaves it unchanged). -/
def runGen (pyset : List Date → List Date) (sheets : Sheets) (startD endD : Date)
    (todo : List Task) : List Task :=
  match generate_list pyset sheets startD endD todo with
  | .ok l => l
  | .error _ => todo

/-- A concrete admissible enumeration, used for evaluating the model. -/
def pysetModel (l : List Date) : List Date := l.dedup

/-! ### `get_apartment_data` / `get_row_by_code` (google_drive_module.py:374-391) -/

/-- Last-binding-wins lookup in the row dict
`{header[i]: (row[i] if i < len(row) else None) for i, h in enumerate(header)}`. -/
def lookupLastAssoc (l : List (String × Option String)) (k : String) : Option (Option String) :=
  ((l.filter (fun p => p.1 = k)).getLast?).map (fun p => p.2)

def getRowByCode (tbl? : Option Table) (ap colName : String) :
    Option (List (String × Option String)) :=
  match tbl? with
  | none => none
  | some tbl =>
    match colIndex (tbl.header.map (fun h => pyUpper (pyTrim h))) (pyUpper (pyTrim colName)) with
    | none => none
    | some ci =>
      match tbl.data.find?
          (fun row => row.length > ci && pyUpper (pyTrim (row.getD ci "")) = pyUpper (pyTrim ap)) with
      | none => none
      | some row => some (tbl.header.enum.map (fun p => (p.2, row.get? p.1)))

def get_apartment_data (sheets : Sheets) (ap : String) : Option (List (String × Option String)) :=
  getRowByCode sheets.apartments ap "AP CODE"

/-- `apartment_data.get("REALTOR", "Unknown") if apartment_data else "Unknown"`;
the inner `Option` is the cell (Python `None` when the row is short). -/
def amRealtor (sheets : Sheets) (ap : String) : Option String :=
  match get_apartment_data sheets ap with
  | some dict =>
    if dict.isEmpty then some "Unknown"
    else
      match lookupLastAssoc dict "REALTOR" with
      | some v => v
      | none => some "Unknown"
  | none => some "Unknown"

/-! ### `TodoManager.add_manual_item` (google_drive_module.py:2418-2504) -/

/-- The last-transaction context scan (google_drive_module.py:2450-2463);
`.error ()` models the uncaught `IndexError` when a row matches on code but is
shorter than the date or type column (only `ValueError` is caught there). -/
def amTransScan (codeCol dateCol typeCol : Nat) (ap : String)
    (acc : List (Date × String)) : List (List String) → Except Unit (List (Date × String))
  | [] => .ok acc
  | row :: rs =>
    if row.length > codeCol ∧ pyTrim (row.getD codeCol "") = ap then
      match row.get? dateCol, row.get? typeCol with
      | some ds, some ts =>
        let acc' :=
          match parseMoDate (pyTrim ds) with
          | some dt => acc ++ [(dt, pyTrim ts)]
          | none => acc
        amTransScan codeCol dateCol typeCol ap acc' rs
      | _, _ => .error ()
    else amTransScan codeCol dateCol typeCol ap acc rs

/-- The last-reading context scan (google_drive_module.py:2480-2492), with the
same uncaught `IndexError` possibility for the date cell. -/
def amUtScan (codeCol dateCol : Nat) (ap : String) (acc : Option Date) :
    List (List String) → Except Unit (Option Date)
  | [] => .ok acc
  | row :: rs =>
    if row.length > codeCol ∧ pyTrim (row.getD codeCol "") = ap then
      match row.get? dateCol with
      | none => .error ()
      | some ds =>
        let acc' :=
          match parseUtDate ds, acc with
          | some d, none => some d
          | some d, some cur => if toOrd d > toOrd cur then some d else some cur
          | none, _ => acc
        amUtScan codeCol dateCol ap acc' rs
    else amUtScan codeCol dateCol ap acc rs

/-- "1. Fetch Last Transaction" of `add_manual_item`
(google_drive_module.py:2443-2471), applied to the fresh item. -/
def amContext1 (sheets : Sheets) (ap_code : String) (item0 : Task) : Except Unit Task :=
  let moData := (sheets.mo.map Table.data).getD []
  let moHeader := ((sheets.mo.map Table.header).getD []).map (fun h => pyUpper (pyTrim h))
  match colIndex moHeader "APARTMENT CODE", colIndex moHeader "SUBMISSION DATE",
        colIndex moHeader "TYPE OF MONEY TASK" with
  | some mc, some md, some mt =>
    match amTransScan mc md mt ap_code [] moData with
    | .error e => .error e
    | .ok allTrans =>
      match (List.insertionSort (fun a b => (toOrd b.1 ≤ toOrd a.1)) allTrans).head? with
      | some latest =>
        .ok { item0 with
              last_transaction_date := some (isoStr latest.1)
              last_transaction_type := some latest.2 }
      | none => .ok item0
  | _, _, _ => .ok item0

/-- "2. Fetch Last UT Reading" of `add_manual_item`
(google_drive_module.py:2474-2497). -/
def amContext2 (sheets : Sheets) (ap_code : String) (item1 : Task) : Except Unit Task :=
  let utData := (sheets.ut.map Table.data).getD []
  let utHeader := (sheets.ut.map Table.header).getD []
  match colIndex utHeader "Apartment Code", colIndex utHeader "Date of Reading" with
  | some uc, some ud =>
    match amUtScan uc ud ap_code none utData with
    | .error e => .error e
    | .ok (some lastUt) => .ok { item1 with last_ut_reading_date := some (isoStr lastUt) }
    | .ok none => .ok item1
  | _, _ => .ok item1

/-- `TodoManager.add_manual_item`: duplicate-key rejection, realtor lookup,
best-effort context, append and sort. -/
def add_manual_item (sheets : Sheets) (todo : List Task) (ap_code : String)
    (due_date : Option Date) : Except Unit (Bool × List Task) :=
  let due_iso := due_date.map isoStr
  let item_key := ap_code ++ (due_iso.getD "")
  if todo.any (fun item => concatKey item = item_key) then .ok (false, todo)
  else
    let realtor := amRealtor sheets ap_code
    let reason := "Manually added" ++
      (match due_date with
       | some d => " - Due on " ++ fmtDayMon d
       | none => "")
    let item0 := { _create_todo_item ap_code reason due_iso realtor "Pending" with manual := true }
    match amContext1 sheets ap_code item0 with
    | .error e => .error e
    | .ok item1 =>
      match amContext2 sheets ap_code item1 with
      | .error e => .error e
      | .ok item2 => .ok (true, sortList (todo ++ [item2]))

/-! ### `TodoManager.restore_item` (google_drive_module.py:2541-2550) -/

/-- Moves the first trash-bin task matching the (code, due_date) pair back to
the active list and re-sorts; no check against the active list's keys. -/
def restore_item (todo trash : List Task) (ap_code : String) (due_date : Option String) :
    Bool × List Task × List Task :=
  match trash.find? (fun item => item.ap_code = ap_code && item.due_date == due_date) with
  | some item => (true, sortList (todo ++ [item]), trash.erase item)
  | none => (false, todo, trash)

/-- Decidable equality for `Except`, for evaluating results of the model. -/
instance {e a : Type} [DecidableEq e] [DecidableEq a] : DecidableEq (Except e a) := fun x y =>
  match x, y with
  | .ok u, .ok v =>
    if h : u = v then isTrue (by rw [h]) else isFalse (fun hc => h (by cases hc; rfl))
  | .error u, .error v =>
    if h : u = v then isTrue (by rw [h]) else isFalse (fun hc => h (by cases hc; rfl))
  | .ok _, .error _ => isFalse (fun hc => Except.noConfusion hc)
  | .error _, .ok _ => isFalse (fun hc => Except.noConfusion hc)

/-! ### Concrete data sets used to evaluate the model -/

def hdrAP : List String := ["AP CODE", "START", "END", "REALTOR", "CHECK_OUT"]

def hdrMO : List String :=
  ["APARTMENT CODE", "SUBMISSION DATE", "TYPE OF MONEY TASK", "SPECIFIC MONEY TASK"]

def hdrUT : List String := ["Apartment Code", "Date of Reading"]

def moEmpty : Table := ⟨hdrMO, []⟩

def utEmpty : Table := ⟨hdrUT, []⟩

def winS : Date := ⟨2024, 6, 1⟩

def winE : Date := ⟨2024, 6, 30⟩

/-- An incomplete task without a due date. -/
def undatedTask : Task := _create_todo_item "M1" "Manually added" none (some "R") "Pending"

/-- An incomplete task with a due date. -/
def datedTask : Task :=
  _create_todo_item "A1" "Rent due on 15-Jun (UNPAID)" (some "2024-06-15") (some "R") "Unpaid"

/-- An active task for key (A1, 2024-06-15). -/
def activeA1 : Task :=
  _create_todo_item "A1" "Rent due on 15-Jun (UNPAID)" (some "2024-06-15") (some "R") "Unpaid"

/-- A trashed task with the same (A1, 2024-06-15) key. -/
def trashedA1 : Task := { activeA1 with note := "note set before removal" }

/-- A manual task for apartment A1 with no due date. -/
def MA1 : Task :=
  { _create_todo_item "A1" "Manually added" none (some "R") "Pending" with manual := true }

/-- Data source deriving a rent task (A1, 2024-06-15) inside the June window. -/
def sheetsC2 : Sheets :=
  ⟨some ⟨hdrAP, [["A1", "15-01-2024", "", "R", ""]]⟩, some moEmpty, some utEmpty⟩

def outC2 : List Task := runGen pysetModel sheetsC2 winS winE [MA1]

/-- A manual task whose apartment code matches nothing derivable. -/
def Mex : Task :=
  { _create_todo_item "Z9" "Manually added" none (some "R") "Pending" with manual := true }

/-- Data source with no apartment rows: derivation yields nothing. -/
def sheetsW : Sheets := ⟨some ⟨hdrAP, []⟩, some moEmpty, some utEmpty⟩

/-- An old dated task for the pair key (AB, 2024-01-01) with note "x". -/
def taskAB : Task :=
  { _create_todo_item "AB" "Rent due on 01-Jan (UNPAID)" (some "2024-01-01") (some "R") "Unpaid"
    with note := "x" }

/-- An old undated task whose apartment code is the string "AB2024-01-01": its
concatenated key collides with `taskAB`'s. -/
def taskM : Task :=
  { _create_todo_item "AB2024-01-01" "Manually added" none (some "R") "Pending" with
    manual := true, note := "y" }

/-- Data source deriving the rent task (AB, 2024-01-01). -/
def sheetsC1 : Sheets :=
  ⟨some ⟨hdrAP, [["AB", "01-01-2024", "", "R", ""]]⟩, some moEmpty, some utEmpty⟩

def d11 : Date := ⟨2024, 1, 1⟩

def outC1 : List Task := runGen pysetModel sheetsC1 d11 d11 [taskAB, taskM]

/-- Contract start day 15 and contract END on 15-06-2024: the rent due date and
the check-out date coincide inside the June window. -/
def sheetsC3 : Sheets :=
  ⟨some ⟨hdrAP, [["A1", "15-01-2024", "15-06-2024", "R", ""]]⟩, some moEmpty, some utEmpty⟩

def outC3 : List Task := runGen pysetModel sheetsC3 winS winE []

/-- APARTMENTS knows only the code A1. -/
def sheetsC9 : Sheets :=
  ⟨some ⟨hdrAP, [["A1", "15-01-2024", "", "R", ""]]⟩, some moEmpty, some utEmpty⟩

/-- The apartment code under which a row is processed (`None`/empty skips the
row, google_drive_module.py:2207-2208). -/
def rowCode (ctx : GenCtx) (row : List String) : Option String :=
  match row.get? ctx.apCodeCol with
  | some ap => if ap = "" then none else some ap
  | none => none

/-- Key-collision discipline between two active tasks: if they share the
(apartment_code, due_date) pair, exactly one of them is a Check-out task. -/
def rcRel (a b : Task) : Prop :=
  pairKey a = pairKey b →
    ((a.status = "Check-out" ∧ ¬ b.status = "Check-out") ∨
     (b.status = "Check-out" ∧ ¬ a.status = "Check-out"))

/-- The year part of the rata-die ordinal. -/
def yearOrd (y : Nat) : Int :=
  365 * ((y : Int) - 1) + ((y : Int) - 1) / 4 - ((y : Int) - 1) / 100 + ((y : Int) - 1) / 400

/-- A manual task as `add_manual_item("AB2024", "-12-15")` would create it
(the code validates neither codes nor date strings), with a user note.  Its
concatenated key "AB2024" ++ "-12-15" collides with the derived rent task
("AB", "2024-12-15") while the pair keys differ. -/
def taskM4 : Task :=
  { _create_todo_item "AB2024" "Manually added" (some "-12-15") (some "Unknown") "Pending" with
    manual := true, note := "m" }

/-- Apartment AB, contract start day 15, no END/CHECK_OUT dates. -/
def sheetsC4 : Sheets :=
  ⟨some ⟨hdrAP, [["AB", "15-01-2024", "", "R", ""]]⟩, some moEmpty, some utEmpty⟩

def winS4 : Date := ⟨2024, 12, 1⟩

def winE4 : Date := ⟨2024, 12, 31⟩

def outC4a : List Task := runGen pysetModel sheetsC4 winS4 winE4 [taskM4]

def outC4b : List Task := runGen pysetModel sheetsC4 winS4 winE4 outC4a

/-! ### Basic lemmas about the reconciliation primitives -/

theorem mem_of_getLast?_eq {α : Type} {l : List α} {a : α} (h : l.getLast? = some a) :
    a ∈ l := by
  cases l with
  | nil => simp at h
  | cons x xs =>
    have hne : x :: xs ≠ [] := by simp
    rw [List.getLast?_eq_getLast _ hne, Option.some.injEq] at h
    rw [← h]
    exact List.getLast_mem hne

theorem lookupOld_mem {old : List Task} {k : String} {t : Task}
    (h : lookupOld old k = some t) : t ∈ old ∧ concatKey t = k := by
  have hm := mem_of_getLast?_eq h
  have := List.mem_filter.mp hm
  exact ⟨this.1, by simpa using this.2⟩

theorem lookupOld_isSome {old : List Task} {t : Task} (ht : t ∈ old) :
    (lookupOld old (concatKey t)).isSome = true := by
  rw [lookupOld, Option.isSome_iff_ne_none]
  intro hnone
  rw [List.getLast?_eq_none_iff] at hnone
  have : t ∈ old.filter (fun x => concatKey x = concatKey t) :=
    List.mem_filter.mpr ⟨ht, by simp⟩
  rw [hnone] at this
  simp at this

/-- Under pairwise-distinct concatenated keys, each task is its own dict value. -/
theorem lookupOld_nodup {old : List Task} {t : Task}
    (hnd : (old.map concatKey).Nodup) (ht : t ∈ old) :
    lookupOld old (concatKey t) = some t := by
  have hs := lookupOld_isSome ht
  obtain ⟨w, hw⟩ := Option.isSome_iff_exists.mp hs
  obtain ⟨hwm, hwk⟩ := lookupOld_mem hw
  have := List.inj_on_of_nodup_map hnd hwm ht hwk
  rw [hw, this]

theorem concatKey_eq_of_pairKey_eq {a b : Task} (h : pairKey a = pairKey b) :
    concatKey a = concatKey b := by
  rcases Prod.mk.injEq _ _ _ _ ▸ h with ⟨h1, h2⟩
  simp [concatKey, h1, h2]

/-- When a task is the only holder of its key in a list, it is the dict winner
at that key. -/
theorem lookupOld_eq_of_unique {old : List Task} {k : String} {t : Task}
    (ht : t ∈ old) (hk : concatKey t = k)
    (huniq : ∀ x ∈ old, concatKey x = k → x = t) :
    lookupOld old k = some t := by
  have hs : (lookupOld old k).isSome = true := by
    have h := lookupOld_isSome ht
    rw [hk] at h
    exact h
  obtain ⟨w, hw⟩ := Option.isSome_iff_exists.mp hs
  obtain ⟨hwm, hwk⟩ := lookupOld_mem hw
  rw [hw, huniq w hwm hwk]

theorem mem_sortList {l : List Task} {t : Task} : t ∈ sortList l ↔ t ∈ l :=
  (List.perm_insertionSort _ l).mem_iff

theorem sortList_perm (l : List Task) : (sortList l).Perm l :=
  List.perm_insertionSort _ l

/-! #### `mergeOld` preserves everything except the mutable fields -/

theorem mergeOld_fields (old : List Task) (t : Task) :
    (mergeOld old t).ap_code = t.ap_code ∧ (mergeOld old t).due_date = t.due_date ∧
    (mergeOld old t).status = t.status ∧ (mergeOld old t).manual = t.manual := by
  unfold mergeOld
  cases lookupOld old (concatKey t) <;> simp

theorem mergeOld_pairKey (old : List Task) (t : Task) :
    pairKey (mergeOld old t) = pairKey t := by
  have h := mergeOld_fields old t
  simp [pairKey, h.1, h.2.1]

theorem mergeOld_concatKey (old : List Task) (t : Task) :
    concatKey (mergeOld old t) = concatKey t := by
  have h := mergeOld_fields old t
  simp [concatKey, h.1, h.2.1]

theorem mergeOld_mut (old : List Task) (t : Task) :
    mutFields (mergeOld old t) =
      (match lookupOld old (concatKey t) with
       | some o => mutFields o
       | none => mutFields t) := by
  unfold mergeOld
  cases lookupOld old (concatKey t) <;> simp [mutFields]

/-! #### `firstKeys` and `oldItems` -/

theorem mem_firstKeys {ks : List String} {k : String} : k ∈ firstKeys ks ↔ k ∈ ks := by
  induction ks with
  | nil => simp [firstKeys]
  | cons a as ih =>
    by_cases hk : k = a
    · subst hk
      simp [firstKeys]
    · simp only [firstKeys, List.mem_cons, List.mem_filter]
      constructor
      · rintro (h | ⟨h, _⟩)
        · exact absurd h hk
        · exact Or.inr (ih.mp h)
      · rintro (h | h)
        · exact absurd h hk
        · exact Or.inr ⟨ih.mpr h, by simpa using hk⟩

theorem nodup_firstKeys (ks : List String) : (firstKeys ks).Nodup := by
  induction ks with
  | nil => simp [firstKeys]
  | cons a as ih =>
    rw [firstKeys, List.nodup_cons]
    refine ⟨fun hmem => ?_, ih.filter _⟩
    have := (List.mem_filter.mp hmem).2
    simp at this

theorem oldItems_spec {old : List Task} {t : Task} (h : t ∈ oldItems old) :
    t ∈ old ∧ lookupOld old (concatKey t) = some t := by
  obtain ⟨k, _, hl⟩ := List.mem_filterMap.mp h
  obtain ⟨hm, hk⟩ := lookupOld_mem hl
  exact ⟨hm, by rw [hk]; exact hl⟩

theorem mem_oldItems {old : List Task} {t : Task} (ht : t ∈ old)
    (hl : lookupOld old (concatKey t) = some t) : t ∈ oldItems old := by
  refine List.mem_filterMap.mpr ⟨concatKey t, ?_, hl⟩
  exact mem_firstKeys.mpr (List.mem_map_of_mem concatKey ht)

theorem mem_oldItems_of_nodup {old : List Task} {t : Task}
    (hnd : (old.map concatKey).Nodup) (ht : t ∈ old) : t ∈ oldItems old :=
  mem_oldItems ht (lookupOld_nodup hnd ht)

theorem oldItems_nodup (old : List Task) : (oldItems old).Nodup := by
  refine List.Nodup.filterMap ?_ (nodup_firstKeys _)
  intro k k' t hk hk'
  simp only [Option.mem_def] at hk hk'
  have h1 := (lookupOld_mem hk).2
  have h2 := (lookupOld_mem hk').2
  rw [← h1, ← h2]

/-! #### `addManuals`: the manual re-add loop -/

theorem addManuals_nil (acc : List Task) : addManuals acc [] = acc := rfl

theorem addManuals_cons (acc : List Task) (o : Task) (os : List Task) :
    addManuals acc (o :: os) =
      addManuals
        (if o.manual && !(acc.any (fun x => x.ap_code = o.ap_code)) then acc ++ [o] else acc)
        os := by
  unfold addManuals
  simp [List.foldl_cons]

theorem addManuals_cond_spec {acc : List Task} {o : Task}
    (hcond : (o.manual && !(acc.any (fun x => x.ap_code = o.ap_code))) = true) :
    o.manual = true ∧ ∀ y ∈ acc, y.ap_code ≠ o.ap_code := by
  rw [Bool.and_eq_true, Bool.not_eq_true'] at hcond
  obtain ⟨h1, h2⟩ := hcond
  refine ⟨h1, fun y hy hEq => ?_⟩
  have : acc.any (fun x => x.ap_code = o.ap_code) = true :=
    List.any_eq_true.mpr ⟨y, hy, by simp [hEq]⟩
  rw [h2] at this
  exact Bool.false_ne_true this

theorem addManuals_cond_of {acc : List Task} {o : Task}
    (h1 : o.manual = true) (h2 : ∀ y ∈ acc, y.ap_code ≠ o.ap_code) :
    (o.manual && !(acc.any (fun x => x.ap_code = o.ap_code))) = true := by
  rw [Bool.and_eq_true, Bool.not_eq_true']
  refine ⟨h1, ?_⟩
  cases hA : acc.any (fun x => x.ap_code = o.ap_code) with
  | false => rfl
  | true =>
    obtain ⟨y, hy, hp⟩ := List.any_eq_true.mp hA
    exact absurd (by simpa using hp) (h2 y hy)

theorem addManuals_mem_of_acc {acc olds : List Task} {t : Task} (h : t ∈ acc) :
    t ∈ addManuals acc olds := by
  induction olds generalizing acc with
  | nil => simpa [addManuals_nil] using h
  | cons o os ih =>
    rw [addManuals_cons]
    split
    · exact ih (List.mem_append_left _ h)
    · exact ih h

/-- Everything the re-add loop appends beyond `acc` is an old item, manual,
and with an apartment code absent from `acc`. -/
theorem addManuals_sound {acc olds : List Task} {t : Task}
    (h : t ∈ addManuals acc olds) :
    t ∈ acc ∨ (t ∈ olds ∧ t.manual = true ∧ ∀ y ∈ acc, y.ap_code ≠ t.ap_code) := by
  induction olds generalizing acc with
  | nil => rw [addManuals_nil] at h; exact Or.inl h
  | cons o os ih =>
    rw [addManuals_cons] at h
    split at h
    · rename_i hcond
      obtain ⟨hman', hap'⟩ := addManuals_cond_spec hcond
      rcases ih h with hacc | ⟨hm, hmanual, hap⟩
      · rcases List.mem_append.mp hacc with h1 | h2
        · exact Or.inl h1
        · have : t = o := by simpa using h2
          subst this
          exact Or.inr ⟨List.mem_cons_self _ _, hman', hap'⟩
      · exact Or.inr ⟨List.mem_cons_of_mem _ hm, hmanual,
          fun y hy => hap y (List.mem_append_left _ hy)⟩
    · rcases ih h with hacc | ⟨hm, hmanual, hap⟩
      · exact Or.inl hacc
      · exact Or.inr ⟨List.mem_cons_of_mem _ hm, hmanual, hap⟩

/-- Structure of the re-add loop's result: `acc` followed by a block of
pairwise-ap-distinct manual old items none of which collides with `acc`. -/
theorem addManuals_shape (acc olds : List Task) :
    ∃ S : List Task,
      addManuals acc olds = acc ++ S ∧
      (∀ x ∈ S, x ∈ olds ∧ x.manual = true ∧ ∀ y ∈ acc, y.ap_code ≠ x.ap_code) ∧
      S.Pairwise (fun a b => a.ap_code ≠ b.ap_code) := by
  induction olds generalizing acc with
  | nil => exact ⟨[], by simp [addManuals_nil], by simp, List.Pairwise.nil⟩
  | cons o os ih =>
    rw [addManuals_cons]
    split
    · rename_i hcond
      obtain ⟨hman', hap'⟩ := addManuals_cond_spec hcond
      obtain ⟨S', hEq, hProp, hPW⟩ := ih (acc ++ [o])
      refine ⟨o :: S', by rw [hEq]; simp, ?_, ?_⟩
      · intro x hx
        rcases List.mem_cons.mp hx with hx | hx
        · subst hx
          exact ⟨List.mem_cons_self _ _, hman', hap'⟩
        · obtain ⟨hm, hman, hap⟩ := hProp x hx
          exact ⟨List.mem_cons_of_mem _ hm, hman, fun y hy => hap y (List.mem_append_left _ hy)⟩
      · rw [List.pairwise_cons]
        refine ⟨fun b hb => ?_, hPW⟩
        obtain ⟨_, _, hap⟩ := hProp b hb
        exact hap o (List.mem_append_right _ (List.mem_singleton_self o))
    · obtain ⟨S', hEq, hProp, hPW⟩ := ih acc
      refine ⟨S', hEq, fun x hx => ?_, hPW⟩
      obtain ⟨hm, hman, hap⟩ := hProp x hx
      exact ⟨List.mem_cons_of_mem _ hm, hman, hap⟩

/-- A manual old item survives the re-add loop when nothing in the accumulator
shares its apartment code and it is the only old item with its code. -/
theorem addManuals_complete {acc olds : List Task} {o : Task}
    (ho : o ∈ olds) (hman : o.manual = true)
    (hacc : ∀ y ∈ acc, y.ap_code ≠ o.ap_code)
    (huniq : ∀ o' ∈ olds, o'.ap_code = o.ap_code → o' = o) :
    o ∈ addManuals acc olds := by
  induction olds generalizing acc with
  | nil => simp at ho
  | cons a as ih =>
    rw [addManuals_cons]
    by_cases hao : a = o
    · subst hao
      rw [if_pos (addManuals_cond_of hman hacc)]
      exact addManuals_mem_of_acc (List.mem_append_right _ (List.mem_singleton_self a))
    · have hos : o ∈ as := by
        rcases List.mem_cons.mp ho with h | h
        · exact absurd h.symm hao
        · exact h
      have huniq' : ∀ o' ∈ as, o'.ap_code = o.ap_code → o' = o := fun o' h' =>
        huniq o' (List.mem_cons_of_mem _ h')
      split
      · refine ih hos ?_ huniq'
        intro y hy
        rcases List.mem_append.mp hy with h1 | h2
        · exact hacc y h1
        · have hya : y = a := by simpa using h2
          subst hya
          intro hEqAp
          exact hao (huniq y (List.mem_cons_self _ _) hEqAp)
      · exact ih hos hacc huniq'


/-! ### Claim C5 -/

/-- C5: the claim says an incomplete task with no due date sorts before an
incomplete task with a due date.  The code's sort key makes `due_date is None`
sort last (`False < True`), so the dated task comes first — contradicting the
claim and the source's own comment ("Items without a date (manual) come
first"). -/
theorem C5_sort_order_bug :
    allComplete undatedTask.checked = false ∧ allComplete datedTask.checked = false ∧
    undatedTask.due_date = none ∧ (datedTask.due_date).isSome = true ∧
    sortList [undatedTask, datedTask] = [datedTask, undatedTask] := by decide

/-! ### Claim C10 -/

/-- C10: `restore_item` moves the first matching trash task back without
checking the active list: restoring (A1, 2024-06-15) while the active list
already holds that key succeeds and leaves two tasks with one pair key. -/
theorem C10_restore_creates_duplicate_key :
    pairKey activeA1 = pairKey trashedA1 ∧
    (restore_item [activeA1] [trashedA1] "A1" (some "2024-06-15")).1 = true ∧
    ((restore_item [activeA1] [trashedA1] "A1" (some "2024-06-15")).2.1.countP
      (fun t => decide (pairKey t = ("A1", some "2024-06-15")))) = 2 := by decide

/-! ### Claim C6 -/

/-- C2 counterexample: `MA1` is manual, its (A1, none) pair key is produced by
no derived task, yet one regeneration drops it — because the re-add loop
compares apartment codes only, and a rent task for A1 exists. -/
theorem C2_counterexample :
    MA1.manual = true ∧
    (∀ d ∈ derivedList pysetModel sheetsC2 winS winE, pairKey d ≠ pairKey MA1) ∧
    generate_list pysetModel sheetsC2 winS winE [MA1] = .ok outC2 ∧
    MA1 ∉ outC2 := by decide

/-- C2 amended: a manual task survives a regeneration when (a) no other old
task shares its concatenated string key `ap_code + (due_date or '')` — a
colliding old task steals the `old_state` dict slot, erasing the manual task
before the re-add loop ever sees it — (b) no other old task carries its
apartment code, and (c) no derived task carries its apartment code (the
re-add check compares `ap_code` alone, not the (code, due_date) pair). -/
theorem C2_manual_survival_amended
    (pyset : List Date → List Date) (sheets : Sheets) (s e : Date) (todo : List Task)
    (M : Task) (out : List Task)
    (hM : M ∈ todo) (hman : M.manual = true)
    (hkey : ∀ t ∈ todo, concatKey t = concatKey M → t = M)
    (huniq : ∀ t ∈ todo, t.ap_code = M.ap_code → t = M)
    (hD : ∀ d ∈ derivedList pyset sheets s e, d.ap_code ≠ M.ap_code)
    (hout : generate_list pyset sheets s e todo = .ok out) :
    M ∈ out := by
  rw [generate_list] at hout
  cases hctx : genCtx? sheets s e with
  | error err => rw [hctx] at hout; exact absurd hout (by simp)
  | ok o =>
    cases o with
    | none =>
      rw [hctx] at hout
      simp only [Except.ok.injEq] at hout
      exact hout ▸ hM
    | some ctx =>
      rw [hctx] at hout
      simp only [Except.ok.injEq] at hout
      subst hout
      have hDL : derivedList pyset sheets s e = derivedRows pyset ctx := by
        rw [derivedList, hctx]
      rw [mem_sortList]
      refine addManuals_complete
        (mem_oldItems hM (lookupOld_eq_of_unique hM rfl hkey)) hman ?_ ?_
      · intro y hy
        obtain ⟨d, hd, rfl⟩ := List.mem_map.mp hy
        rw [(mergeOld_fields todo d).1]
        exact hD d (by rw [hDL]; exact hd)
      · intro o' ho' hap
        exact huniq o' (oldItems_spec ho').1 hap

/-- C2 witness: with no apartment rows nothing is derived and the manual task
`Mex` survives the regeneration. -/
theorem C2_manual_survival_witness : Mex ∈ runGen pysetModel sheetsW winS winE [Mex] :=
  C2_manual_survival_amended pysetModel sheetsW winS winE [Mex] Mex
    (runGen pysetModel sheetsW winS winE [Mex]) (by decide) (by decide) (by decide)
    (by decide) (by decide) (by rfl)

/-! ### Claim C1 -/

/-- C1 counterexample: the code keys tasks by the concatenated string
`ap_code + (due_date or '')`.  The dated task (AB, 2024-01-01) and the undated
task whose apartment code is the string "AB2024-01-01" collide on that key, so
regeneration copies the colliding task's note "y" onto the re-derived
(AB, 2024-01-01) task, although a task with that exact pair key and note "x"
existed before. -/
theorem C1_counterexample :
    pairKey taskAB ≠ pairKey taskM ∧ concatKey taskAB = concatKey taskM ∧
    taskAB.note = "x" ∧ taskAB ∈ [taskAB, taskM] ∧
    generate_list pysetModel sheetsC1 d11 d11 [taskAB, taskM] = .ok outC1 ∧
    (∃ ta ∈ outC1, pairKey ta = pairKey taskAB ∧ mutFields ta ≠ mutFields taskAB) := by decide

/-- C1 amended: when no two tasks of the old active list share the same
concatenated `ap_code + (due_date or '')` key, every task surviving
regeneration under a pair key present before keeps `checked`, `note` and
`check_time` unchanged. -/
theorem C1_mutable_fields_amended
    (pyset : List Date → List Date) (sheets : Sheets) (s e : Date) (todo out : List Task)
    (hnd : (todo.map concatKey).Nodup)
    (hout : generate_list pyset sheets s e todo = .ok out) :
    ∀ ta ∈ out, ∀ tb ∈ todo, pairKey ta = pairKey tb → mutFields ta = mutFields tb := by
  intro ta hta tb htb hpair
  rw [generate_list] at hout
  cases hctx : genCtx? sheets s e with
  | error err => rw [hctx] at hout; exact absurd hout (by simp)
  | ok o =>
    cases o with
    | none =>
      rw [hctx] at hout
      simp only [Except.ok.injEq] at hout
      subst hout
      rw [List.inj_on_of_nodup_map hnd hta htb (concatKey_eq_of_pairKey_eq hpair)]
    | some ctx =>
      rw [hctx] at hout
      simp only [Except.ok.injEq] at hout
      subst hout
      rw [mem_sortList] at hta
      rcases addManuals_sound hta with hA | ⟨hmem, _, _⟩
      · obtain ⟨d, _, rfl⟩ := List.mem_map.mp hA
        have hk : concatKey d = concatKey tb := by
          rw [← mergeOld_concatKey todo d]
          exact concatKey_eq_of_pairKey_eq ((mergeOld_pairKey todo d) ▸ hpair)
        have hlook : lookupOld todo (concatKey d) = some tb := by
          rw [hk]
          exact lookupOld_nodup hnd htb
        rw [mergeOld_mut, hlook]
      · rw [List.inj_on_of_nodup_map hnd (oldItems_spec hmem).1 htb
          (concatKey_eq_of_pairKey_eq hpair)]

/-- C1 witness: with a collision-free old list the note "x" on
(AB, 2024-01-01) survives regeneration. -/
theorem C1_mutable_fields_witness :
    mutFields ((runGen pysetModel sheetsC1 d11 d11 [taskAB]).getD 0 taskAB) =
      mutFields taskAB :=
  C1_mutable_fields_amended pysetModel sheetsC1 d11 d11 [taskAB]
    (runGen pysetModel sheetsC1 d11 d11 [taskAB]) (by decide) (by rfl)
    ((runGen pysetModel sheetsC1 d11 d11 [taskAB]).getD 0 taskAB) (by decide) taskAB
    (by decide) (by decide)
/-! ### Helper lemmas for `add_manual_item`, `rentItem` and `checkoutFold` -/

theorem amContext1_fields {sheets : Sheets} {ap : String} {t t' : Task}
    (h : amContext1 sheets ap t = .ok t') :
    t'.manual = t.manual ∧ t'.status = t.status ∧ t'.ap_code = t.ap_code ∧
    t'.due_date = t.due_date ∧ t'.note = t.note := by
  unfold amContext1 at h
  dsimp only at h
  repeat' split at h
  all_goals cases h
  all_goals exact ⟨rfl, rfl, rfl, rfl, rfl⟩

theorem amContext2_fields {sheets : Sheets} {ap : String} {t t' : Task}
    (h : amContext2 sheets ap t = .ok t') :
    t'.manual = t.manual ∧ t'.status = t.status ∧ t'.ap_code = t.ap_code ∧
    t'.due_date = t.due_date ∧ t'.note = t.note := by
  unfold amContext2 at h
  dsimp only at h
  repeat' split at h
  all_goals cases h
  all_goals exact ⟨rfl, rfl, rfl, rfl, rfl⟩

theorem rentItem_ap (ri : RowInfo) (up : Bool) (txs : List Trans) (due : Date) :
    (rentItem ri up txs due).ap_code = ri.ap := by
  cases hf : findPaymentDate txs due with
  | some pd => simp [rentItem, withContext, _create_todo_item, hf]
  | none => by_cases hup : up <;> simp [rentItem, withContext, _create_todo_item, hf, hup]

theorem rentItem_due (ri : RowInfo) (up : Bool) (txs : List Trans) (due : Date) :
    (rentItem ri up txs due).due_date = some (isoStr due) := by
  cases hf : findPaymentDate txs due with
  | some pd => simp [rentItem, withContext, _create_todo_item, hf]
  | none => by_cases hup : up <;> simp [rentItem, withContext, _create_todo_item, hf, hup]

theorem rentItem_mut (ri : RowInfo) (up : Bool) (txs : List Trans) (due : Date) :
    mutFields (rentItem ri up txs due) = (⟨false, false, false, false⟩, "", none) := by
  cases hf : findPaymentDate txs due with
  | some pd => simp [rentItem, withContext, _create_todo_item, mutFields, hf]
  | none =>
    by_cases hup : up <;> simp [rentItem, withContext, _create_todo_item, mutFields, hf, hup]

theorem rentItem_manual (ri : RowInfo) (up : Bool) (txs : List Trans) (due : Date) :
    (rentItem ri up txs due).manual = false := by
  cases hf : findPaymentDate txs due with
  | some pd => simp [rentItem, withContext, _create_todo_item, hf]
  | none => by_cases hup : up <;> simp [rentItem, withContext, _create_todo_item, hf, hup]

/-- Tasks the check-out loop appends: full shape of the emitted item. -/
theorem checkoutFold_sound {ctx : GenCtx} {ri : RowInfo} {acc : List Task} {ds : List Date}
    {t : Task} (h : t ∈ checkoutFold ctx ri acc ds) :
    t ∈ acc ∨ ∃ c ∈ ds, dateInWindow ctx c = true ∧
      t = withContext ri (_create_todo_item ri.ap ("Check-out on " ++ fmtDayMon c)
            (some (isoStr c)) ri.realtor "Check-out") := by
  induction ds generalizing acc with
  | nil => exact Or.inl (by simpa [checkoutFold] using h)
  | cons c cs ih =>
    rw [checkoutFold] at h
    rcases ih h with hacc | ⟨c', hc', hw', hshape⟩
    · split at hacc
      · split at hacc
        · rcases List.mem_append.mp hacc with h1 | h2
          · exact Or.inl h1
          · rename_i hwin _
            refine Or.inr ⟨c, List.mem_cons_self _ _, hwin, by simpa using h2⟩
        · exact Or.inl hacc
      · exact Or.inl hacc
    · exact Or.inr ⟨c', List.mem_cons_of_mem _ hc', hw', hshape⟩

/-! ### Claim C9 -/

/-- C9 counterexample: the apartment code ZZ is unknown to APARTMENTS, yet
`add_manual_item` succeeds (the claim says it must return a failure result);
the created task simply carries realtor "Unknown". -/
theorem C9_counterexample :
    get_apartment_data sheetsC9 "ZZ" = none ∧
    (add_manual_item sheetsC9 [] "ZZ" none).map Prod.fst = .ok true ∧
    (add_manual_item sheetsC9 [] "ZZ" none).map
      (fun p => p.2.map (fun t => (t.realtor, t.status, t.manual))) =
      .ok [(some "Unknown", "Pending", true)] := by decide

/-- C9 amended: `add_manual_item` returns a failure result exactly when the
concatenated (code ++ due) key is already present in the active list; an
unknown apartment code does not cause failure.  On success a task with
`manual = true` and status "Pending" is appended and the list re-sorted,
leaving all pre-existing tasks in place (the context scans can also raise an
uncaught `IndexError` on short MO/UT rows, in which case nothing is returned
at all). -/
theorem C9_add_manual_amended (sheets : Sheets) (todo : List Task) (ap : String)
    (due : Option Date) :
    (todo.any (fun t => concatKey t = ap ++ ((due.map isoStr).getD "")) = true →
      add_manual_item sheets todo ap due = .ok (false, todo)) ∧
    (∀ out, add_manual_item sheets todo ap due = .ok (false, out) →
      todo.any (fun t => concatKey t = ap ++ ((due.map isoStr).getD "")) = true ∧ out = todo) ∧
    (∀ out, add_manual_item sheets todo ap due = .ok (true, out) →
      todo.any (fun t => concatKey t = ap ++ ((due.map isoStr).getD "")) = false ∧
      ∃ item : Task, item.manual = true ∧ item.status = "Pending" ∧ item.ap_code = ap ∧
        item.due_date = due.map isoStr ∧ out = sortList (todo ++ [item])) := by
  cases hA : todo.any (fun t => concatKey t = ap ++ ((due.map isoStr).getD "")) with
  | true =>
    have hres : add_manual_item sheets todo ap due = .ok (false, todo) := by
      unfold add_manual_item
      dsimp only
      rw [hA]
      simp
    refine ⟨fun _ => hres, fun out h => ?_, fun out h => ?_⟩
    · rw [hres] at h
      injection h with h
      exact ⟨rfl, (congrArg Prod.snd h).symm⟩
    · rw [hres] at h
      injection h with h
      have hx := congrArg Prod.fst h
      simp at hx
  | false =>
    refine ⟨?_, ?_, ?_⟩
    · intro h
      exact absurd h (by decide)
    · intro out h
      unfold add_manual_item at h
      dsimp only at h
      rw [hA] at h
      simp only [Bool.false_eq_true, if_false] at h
      split at h
      · cases h
      · split at h
        · cases h
        · injection h with h
          have hx := congrArg Prod.fst h
          simp at hx
    · intro out h
      unfold add_manual_item at h
      dsimp only at h
      rw [hA] at h
      simp only [Bool.false_eq_true, if_false] at h
      split at h
      · cases h
      · rename_i item1 h1
        split at h
        · cases h
        · rename_i item2 h2
          injection h with h
          obtain ⟨f1m, f1s, f1a, f1d, _⟩ := amContext1_fields h1
          obtain ⟨f2m, f2s, f2a, f2d, _⟩ := amContext2_fields h2
          refine ⟨rfl, item2, ?_, ?_, ?_, ?_, ?_⟩
          · rw [f2m, f1m]
          · rw [f2s, f1s]; rfl
          · rw [f2a, f1a]; rfl
          · rw [f2d, f1d]; rfl
          · exact (congrArg Prod.snd h).symm

/-- C9 witness: duplicate concatenated key is rejected with the list unchanged;
and a fresh add succeeds with the manual "Pending" task appended. -/
theorem C9_add_manual_witness :
    add_manual_item sheetsC9 [activeA1] "A1" (some ⟨2024, 6, 15⟩) = .ok (false, [activeA1]) :=
  (C9_add_manual_amended sheetsC9 [activeA1] "A1" (some ⟨2024, 6, 15⟩)).1 (by decide)

/-! ### Claim C8 -/

theorem toOrd_eq_yearOrd (dt : Date) :
    toOrd dt = yearOrd dt.y + (daysBeforeMonth dt.y dt.m : Int) + (dt.d : Int) := rfl

theorem daysInMonth_le_31 (y m : Nat) : daysInMonth y m ≤ 31 := by
  unfold daysInMonth
  split
  · split <;> omega
  · split <;> omega

theorem daysInMonth_pos (y m : Nat) : 1 ≤ daysInMonth y m := by
  unfold daysInMonth
  split
  · split <;> omega
  · split <;> omega

theorem daysBeforeMonth_succ (y : Nat) : ∀ m : Nat, 1 ≤ m →
    daysBeforeMonth y (m + 1) = daysBeforeMonth y m + daysInMonth y m
  | _ + 1, _ => rfl

theorem daysBeforeMonth_le_succ (y k : Nat) :
    daysBeforeMonth y k ≤ daysBeforeMonth y (k + 1) := by
  cases k with
  | zero => simp [daysBeforeMonth]
  | succ n =>
    rw [daysBeforeMonth_succ y (n + 1) (by omega)]
    exact Nat.le_add_right _ _

theorem daysBeforeMonth_mono (y : Nat) {m m' : Nat} (h : m ≤ m') :
    daysBeforeMonth y m ≤ daysBeforeMonth y m' := by
  induction h with
  | refl => exact Nat.le_refl _
  | step h ih => exact Nat.le_trans ih (daysBeforeMonth_le_succ y _)

theorem daysBeforeMonth_13 (y : Nat) :
    daysBeforeMonth y 13 = 365 + (if isLeap y then 1 else 0) := by
  have e12 : daysBeforeMonth y 13 = daysBeforeMonth y 12 + daysInMonth y 12 :=
    daysBeforeMonth_succ y 12 (by omega)
  have e11 : daysBeforeMonth y 12 = daysBeforeMonth y 11 + daysInMonth y 11 :=
    daysBeforeMonth_succ y 11 (by omega)
  have e10 : daysBeforeMonth y 11 = daysBeforeMonth y 10 + daysInMonth y 10 :=
    daysBeforeMonth_succ y 10 (by omega)
  have e9 : daysBeforeMonth y 10 = daysBeforeMonth y 9 + daysInMonth y 9 :=
    daysBeforeMonth_succ y 9 (by omega)
  have e8 : daysBeforeMonth y 9 = daysBeforeMonth y 8 + daysInMonth y 8 :=
    daysBeforeMonth_succ y 8 (by omega)
  have e7 : daysBeforeMonth y 8 = daysBeforeMonth y 7 + daysInMonth y 7 :=
    daysBeforeMonth_succ y 7 (by omega)
  have e6 : daysBeforeMonth y 7 = daysBeforeMonth y 6 + daysInMonth y 6 :=
    daysBeforeMonth_succ y 6 (by omega)
  have e5 : daysBeforeMonth y 6 = daysBeforeMonth y 5 + daysInMonth y 5 :=
    daysBeforeMonth_succ y 5 (by omega)
  have e4 : daysBeforeMonth y 5 = daysBeforeMonth y 4 + daysInMonth y 4 :=
    daysBeforeMonth_succ y 4 (by omega)
  have e3 : daysBeforeMonth y 4 = daysBeforeMonth y 3 + daysInMonth y 3 :=
    daysBeforeMonth_succ y 3 (by omega)
  have e2 : daysBeforeMonth y 3 = daysBeforeMonth y 2 + daysInMonth y 2 :=
    daysBeforeMonth_succ y 2 (by omega)
  have e1 : daysBeforeMonth y 2 = daysBeforeMonth y 1 + daysInMonth y 1 :=
    daysBeforeMonth_succ y 1 (by omega)
  have e0 : daysBeforeMonth y 1 = 0 := rfl
  have d1 : daysInMonth y 1 = 31 := rfl
  have d2 : daysInMonth y 2 = if isLeap y then 29 else 28 := rfl
  have d3 : daysInMonth y 3 = 31 := rfl
  have d4 : daysInMonth y 4 = 30 := rfl
  have d5 : daysInMonth y 5 = 31 := rfl
  have d6 : daysInMonth y 6 = 30 := rfl
  have d7 : daysInMonth y 7 = 31 := rfl
  have d8 : daysInMonth y 8 = 31 := rfl
  have d9 : daysInMonth y 9 = 30 := rfl
  have d10 : daysInMonth y 10 = 31 := rfl
  have d11 : daysInMonth y 11 = 30 := rfl
  have d12 : daysInMonth y 12 = 31 := rfl
  cases hL : isLeap y <;> simp_all

theorem yearOrd_succ (y : Nat) :
    yearOrd (y + 1) = yearOrd y + 365 + (if isLeap y then 1 else 0) := by
  cases hL : isLeap y <;>
    simp only [isLeap, Bool.and_eq_true, Bool.or_eq_true, decide_eq_true_iff,
      Bool.and_eq_false_iff, Bool.or_eq_false_iff, decide_eq_false_iff_not,
      bne_iff_ne, ne_eq, Bool.not_eq_true] at hL <;>
    simp only [yearOrd, if_true, if_false] <;>
    push_cast <;>
    omega

theorem yearOrd_mono {y y' : Nat} (h : y ≤ y') : yearOrd y ≤ yearOrd y' := by
  unfold yearOrd
  omega

theorem toOrd_upper {a : Date} (ha : validCal a = true) :
    toOrd a ≤ yearOrd a.y + 365 + (if isLeap a.y then 1 else 0) := by
  simp only [validCal, Bool.and_eq_true, decide_eq_true_iff] at ha
  obtain ⟨⟨⟨⟨hy, hm1⟩, hm2⟩, hd1⟩, hd2⟩ := ha
  rw [toOrd_eq_yearOrd]
  have h1 : daysBeforeMonth a.y a.m + a.d ≤ daysBeforeMonth a.y (a.m + 1) := by
    rw [daysBeforeMonth_succ a.y a.m hm1]
    omega
  have h2 : daysBeforeMonth a.y (a.m + 1) ≤ daysBeforeMonth a.y 13 :=
    daysBeforeMonth_mono a.y (by omega)
  have h3 := daysBeforeMonth_13 a.y
  cases hL : isLeap a.y <;> rw [hL] at h3 <;>
    simp only [Bool.false_eq_true, eq_self_iff_true, if_true, if_false] at h3 ⊢ <;> omega

theorem toOrd_lower {a : Date} (ha : validCal a = true) :
    yearOrd a.y + 1 ≤ toOrd a := by
  simp only [validCal, Bool.and_eq_true, decide_eq_true_iff] at ha
  rw [toOrd_eq_yearOrd]
  omega

theorem year_le_of_toOrd_le {a b : Date} (ha : validCal a = true) (hb : validCal b = true)
    (h : toOrd a ≤ toOrd b) : a.y ≤ b.y := by
  by_contra hc
  have hby : b.y + 1 ≤ a.y := by omega
  have h1 := toOrd_upper hb
  have h2 := yearOrd_succ b.y
  have h3 := yearOrd_mono hby
  have h4 := toOrd_lower ha
  cases hL : isLeap b.y <;> rw [hL] at h1 h2 <;>
    simp only [Bool.false_eq_true, eq_self_iff_true, if_true, if_false] at h1 h2 <;> omega

theorem validCal_nextDay {dt : Date} (h : validCal dt = true) :
    validCal (nextDay dt) = true := by
  simp only [validCal, Bool.and_eq_true, decide_eq_true_iff] at h
  obtain ⟨⟨⟨⟨hy, hm1⟩, hm2⟩, hd1⟩, hd2⟩ := h
  unfold nextDay
  split
  · simp only [validCal, Bool.and_eq_true, decide_eq_true_iff]
    refine ⟨⟨⟨⟨hy, hm1⟩, hm2⟩, by omega⟩, by omega⟩
  · split
    · simp only [validCal, Bool.and_eq_true, decide_eq_true_iff]
      exact ⟨⟨⟨⟨hy, by omega⟩, by omega⟩, by omega⟩, daysInMonth_pos _ _⟩
    · simp only [validCal, Bool.and_eq_true, decide_eq_true_iff]
      exact ⟨⟨⟨⟨by omega, by omega⟩, by omega⟩, by omega⟩, daysInMonth_pos _ _⟩

theorem toOrd_nextDay {dt : Date} (h : validCal dt = true) :
    toOrd (nextDay dt) = toOrd dt + 1 := by
  obtain ⟨y, m, d⟩ := dt
  simp only [validCal, Bool.and_eq_true, decide_eq_true_iff] at h
  obtain ⟨⟨⟨⟨hy, hm1⟩, hm2⟩, hd1⟩, hd2⟩ := h
  unfold nextDay
  dsimp only at *
  split
  · rw [toOrd_eq_yearOrd, toOrd_eq_yearOrd]
    dsimp only
    push_cast
    omega
  · split
    · rename_i hlt hm
      have hde : d = daysInMonth y m := by omega
      rw [toOrd_eq_yearOrd, toOrd_eq_yearOrd]
      dsimp only
      rw [daysBeforeMonth_succ y m hm1]
      push_cast
      omega
    · rename_i hlt hm
      have hm12 : m = 12 := by omega
      subst hm12
      have hdim : daysInMonth y 12 = 31 := rfl
      have hde : d = 31 := by omega
      subst hde
      rw [toOrd_eq_yearOrd, toOrd_eq_yearOrd]
      dsimp only
      have hys := yearOrd_succ y
      have hdbm13 := daysBeforeMonth_13 y
      have hsucc : daysBeforeMonth y 13 = daysBeforeMonth y 12 + 31 := by
        rw [daysBeforeMonth_succ y 12 (by omega), hdim]
      have e0 : daysBeforeMonth (y + 1) 1 = 0 := rfl
      rw [e0]
      cases hL : isLeap y <;> rw [hL] at hys hdbm13 <;>
        simp only [Bool.false_eq_true, eq_self_iff_true, if_true, if_false] at hys hdbm13 <;>
        push_cast <;> omega

/-! ### Injectivity of `isoformat` on Python-representable dates -/

theorem digitChar_inj {a b : Nat} (h : digitChar a = digitChar b) : a % 10 = b % 10 := by
  have h10a : a % 10 < 10 := Nat.mod_lt _ (by omega)
  have h10b : b % 10 < 10 := Nat.mod_lt _ (by omega)
  have hfin : ∀ x : Fin 10, ∀ y : Fin 10, digitChar x.val = digitChar y.val → x.val = y.val := by
    decide
  have ea : digitChar (a % 10) = digitChar a := by
    unfold digitChar
    have : a % 10 % 10 = a % 10 := by omega
    rw [this]
  have eb : digitChar (b % 10) = digitChar b := by
    unfold digitChar
    have : b % 10 % 10 = b % 10 := by omega
    rw [this]
  exact hfin ⟨a % 10, h10a⟩ ⟨b % 10, h10b⟩ (by rw [ea, eb, h])

theorem isoStr_inj {a b : Date} (ha : validDate a = true) (hb : validDate b = true)
    (h : isoStr a = isoStr b) : a = b := by
  obtain ⟨y1, m1, d1⟩ := a
  obtain ⟨y2, m2, d2⟩ := b
  simp only [validDate, validCal, Bool.and_eq_true, decide_eq_true_iff] at ha hb
  obtain ⟨⟨⟨⟨⟨hy1, hm1a⟩, hm1b⟩, hd1a⟩, hd1b⟩, hy1b⟩ := ha
  obtain ⟨⟨⟨⟨⟨hy2, hm2a⟩, hm2b⟩, hd2a⟩, hd2b⟩, hy2b⟩ := hb
  have hdm1 : daysInMonth y1 m1 ≤ 31 := daysInMonth_le_31 _ _
  have hdm2 : daysInMonth y2 m2 ≤ 31 := daysInMonth_le_31 _ _
  have hd := congrArg String.data h
  simp only [isoStr, List.cons.injEq, and_true] at hd
  obtain ⟨e1, e2, e3, e4, _, e5, e6, _, e7, e8⟩ := hd
  have f1 := digitChar_inj e1
  have f2 := digitChar_inj e2
  have f3 := digitChar_inj e3
  have f4 := digitChar_inj e4
  have f5 := digitChar_inj e5
  have f6 := digitChar_inj e6
  have f7 := digitChar_inj e7
  have f8 := digitChar_inj e8
  simp only [Date.mk.injEq]
  omega

/-! ### Soundness of the due-date enumeration -/

theorem dueDatesFuel_sound (payday : Nat) (endD : Date) :
    ∀ (fuel : Nat) (cur : Date), validCal cur = true →
      (∀ x ∈ dueDatesFuel payday endD fuel cur,
        validCal x = true ∧ toOrd cur ≤ toOrd x ∧ toOrd x ≤ toOrd endD ∧ x.d = payday) ∧
      (dueDatesFuel payday endD fuel cur).Pairwise (fun a b => toOrd a < toOrd b) := by
  intro fuel
  induction fuel with
  | zero => intro cur _; simp [dueDatesFuel]
  | succ f ih =>
    intro cur hcur
    rw [dueDatesFuel]
    split
    · rename_i hle
      have hnext := validCal_nextDay hcur
      have hord := toOrd_nextDay hcur
      obtain ⟨ihMem, ihPW⟩ := ih (nextDay cur) hnext
      constructor
      · intro x hx
        rcases List.mem_append.mp hx with h1 | h2
        · have : x = cur := by
            split at h1
            · simpa using h1
            · simp at h1
          subst this
          refine ⟨hcur, le_refl _, hle, ?_⟩
          split at h1
          · assumption
          · simp at h1
        · obtain ⟨hv, hge, hle', hd⟩ := ihMem x h2
          exact ⟨hv, by omega, hle', hd⟩
      · rw [List.pairwise_append]
        refine ⟨?_, ihPW, ?_⟩
        · split <;> simp
        · intro a ha b hb
          have haeq : a = cur := by
            split at ha
            · simpa using ha
            · simp at ha
          subst haeq
          have := (ihMem b hb).2.1
          omega
    · simp

/-! ### Claim C3: key-collision discipline of the generated list -/

theorem rcRel_symm {x y : Task} (h : rcRel x y) : rcRel y x := by
  intro hp
  rcases h hp.symm with ⟨h1, h2⟩ | ⟨h1, h2⟩
  · exact Or.inr ⟨h1, h2⟩
  · exact Or.inl ⟨h1, h2⟩

theorem rcRel_of_ap_ne {a b : Task} (h : a.ap_code ≠ b.ap_code) : rcRel a b :=
  fun hp => absurd (congrArg Prod.fst hp) h

/-- The merge step changes neither keys nor statuses, so it preserves the
collision discipline. -/
theorem mergeOld_pairwise_rcRel (old : List Task) {D : List Task}
    (h : D.Pairwise rcRel) : (D.map (mergeOld old)).Pairwise rcRel := by
  rw [List.pairwise_map]
  refine h.imp ?_
  intro a b hab hp
  rw [mergeOld_pairKey, mergeOld_pairKey] at hp
  rcases hab hp with ⟨h1, h2⟩ | ⟨h1, h2⟩
  · exact Or.inl ⟨by rw [(mergeOld_fields old a).2.2.1]; exact h1,
      by rw [(mergeOld_fields old b).2.2.1]; exact h2⟩
  · exact Or.inr ⟨by rw [(mergeOld_fields old b).2.2.1]; exact h1,
      by rw [(mergeOld_fields old a).2.2.1]; exact h2⟩

/-- The manual re-add loop preserves any relation implied by distinct apartment
codes: the appended block never repeats a code and never collides with `acc`. -/
theorem addManuals_pairwise {R : Task → Task → Prop}
    (hR : ∀ a b : Task, a.ap_code ≠ b.ap_code → R a b)
    (acc olds : List Task) (hacc : acc.Pairwise R) :
    (addManuals acc olds).Pairwise R := by
  obtain ⟨S, hEq, hProp, hPW⟩ := addManuals_shape acc olds
  rw [hEq, List.pairwise_append]
  refine ⟨hacc, hPW.imp (fun hab => hR _ _ hab), ?_⟩
  intro a ha b hb
  exact hR a b ((hProp b hb).2.2 a ha)

/-- The check-out loop preserves the collision discipline: a task it appends
has status Check-out and the guard guarantees no earlier Check-out task of the
same apartment is present. -/
theorem checkoutFold_pairwise (ctx : GenCtx) (ri : RowInfo) :
    ∀ (ds : List Date) (acc : List Task), acc.Pairwise rcRel →
      (checkoutFold ctx ri acc ds).Pairwise rcRel := by
  intro ds
  induction ds with
  | nil => intro acc h; exact h
  | cons c cs ih =>
    intro acc h
    rw [checkoutFold]
    by_cases hw : dateInWindow ctx c = true
    · rw [if_pos hw]
      by_cases hg : (acc.any (fun item => item.ap_code = ri.ap && item.status = "Check-out")) = true
      · rw [hg]
        simp only [Bool.not_true, Bool.false_eq_true, if_false]
        exact ih acc h
      · rw [Bool.not_eq_true] at hg
        rw [hg]
        simp only [Bool.not_false, if_true]
        refine ih _ ?_
        rw [List.pairwise_append]
        refine ⟨h, List.pairwise_singleton _ _, ?_⟩
        intro a ha b hb
        have hb' : b = withContext ri
            (_create_todo_item ri.ap ("Check-out on " ++ fmtDayMon c) (some (isoStr c))
              ri.realtor "Check-out") := by simpa using hb
        subst hb'
        intro hp
        refine Or.inr ⟨rfl, ?_⟩
        intro hstA
        have hap : a.ap_code = ri.ap := congrArg Prod.fst hp
        have hany : (acc.any (fun item => item.ap_code = ri.ap && item.status = "Check-out"))
            = true := by
          rw [List.any_eq_true]
          exact ⟨a, ha, by simp [hap, hstA]⟩
        rw [hg] at hany
        exact Bool.false_ne_true hany
    · rw [if_neg hw]
      exact ih acc h

/-- Rent tasks emitted for one row are pairwise collision-free: their due-date
strings come from strictly increasing valid dates, and `isoformat` is injective
on representable dates. -/
theorem rent_tasks_pairwise (ctx : GenCtx) (ri : RowInfo) (up : Bool) (txs : List Trans)
    (payday : Nat) (hvs : validCal ctx.startD = true) (hve : validCal ctx.endD = true)
    (hey : ctx.endD.y ≤ 9998) :
    ((dueDates ctx.startD ctx.endD payday).map (rentItem ri up txs)).Pairwise rcRel := by
  rw [List.pairwise_map]
  unfold dueDates
  obtain ⟨hmem, hpw⟩ := dueDatesFuel_sound payday ctx.endD
    ((toOrd ctx.endD - toOrd ctx.startD).toNat + 1) ctx.startD hvs
  refine List.Pairwise.imp_of_mem ?_ hpw
  intro a b ha hb hlt hp
  exfalso
  have hsnd : (rentItem ri up txs a).due_date = (rentItem ri up txs b).due_date :=
    congrArg Prod.snd hp
  rw [rentItem_due, rentItem_due] at hsnd
  have hiso : isoStr a = isoStr b := Option.some_injective _ hsnd
  obtain ⟨hva, _, hlea, _⟩ := hmem a ha
  obtain ⟨hvb, _, hleb, _⟩ := hmem b hb
  have hya : a.y ≤ 9999 := le_trans (year_le_of_toOrd_le hva hve hlea) (by omega)
  have hyb : b.y ≤ 9999 := le_trans (year_le_of_toOrd_le hvb hve hleb) (by omega)
  have hvda : validDate a = true := by
    unfold validDate
    rw [Bool.and_eq_true]
    exact ⟨hva, by simpa using hya⟩
  have hvdb : validDate b = true := by
    unfold validDate
    rw [Bool.and_eq_true]
    exact ⟨hvb, by simpa using hyb⟩
  have hab : a = b := isoStr_inj hvda hvdb hiso
  subst hab
  exact absurd hlt (lt_irrefl _)

/-- Every task the row loop adds carries the row's apartment code, is not
manual, and has pristine mutable fields. -/
theorem processRow_sound {pyset : List Date → List Date} {ctx : GenCtx} {acc : List Task}
    {row : List String} {t : Task} (h : t ∈ processRow pyset ctx acc row) :
    t ∈ acc ∨ ∃ ap, rowCode ctx row = some ap ∧ t.ap_code = ap ∧ t.manual = false ∧
      mutFields t = (⟨false, false, false, false⟩, "", none) := by
  unfold processRow at h
  cases hc : row.get? ctx.apCodeCol with
  | none => rw [hc] at h; exact Or.inl h
  | some ap =>
    rw [hc] at h
    dsimp only at h
    by_cases hne : ap = ""
    · rw [if_pos hne] at h
      exact Or.inl h
    · rw [if_neg hne] at h
      have hrc : rowCode ctx row = some ap := by
        unfold rowCode
        rw [hc]
        dsimp only
        rw [if_neg hne]
      split at h
      · exact Or.inl h
      · rcases checkoutFold_sound h with h1 | ⟨c, hcmem, hwin, rfl⟩
        · split at h1
          · exact Or.inl h1
          · split at h1
            · exact Or.inl h1
            · rcases List.mem_append.mp h1 with h2 | h3
              · exact Or.inl h2
              · obtain ⟨d, hdm, rfl⟩ := List.mem_map.mp h3
                exact Or.inr ⟨ap, hrc, rentItem_ap _ _ _ _, rentItem_manual _ _ _ _,
                  rentItem_mut _ _ _ _⟩
        · exact Or.inr ⟨ap, hrc, rfl, rfl, rfl⟩

/-- One pass of the row loop preserves the collision discipline, provided the
accumulated tasks never carry this row's code. -/
theorem processRow_pairwise (pyset : List Date → List Date) (ctx : GenCtx)
    (hvs : validCal ctx.startD = true) (hve : validCal ctx.endD = true)
    (hey : ctx.endD.y ≤ 9998) (acc : List Task) (row : List String)
    (hdisj : ∀ t ∈ acc, ∀ c, rowCode ctx row = some c → t.ap_code ≠ c)
    (hacc : acc.Pairwise rcRel) :
    (processRow pyset ctx acc row).Pairwise rcRel := by
  unfold processRow
  cases hc : row.get? ctx.apCodeCol with
  | none => exact hacc
  | some ap =>
    dsimp only
    by_cases hne : ap = ""
    · rw [if_pos hne]; exact hacc
    · rw [if_neg hne]
      have hrc : rowCode ctx row = some ap := by
        unfold rowCode
        rw [hc]
        dsimp only
        rw [if_neg hne]
      split
      · exact hacc
      · apply checkoutFold_pairwise
        split
        · exact hacc
        · split
          · exact hacc
          · rw [List.pairwise_append]
            refine ⟨hacc, rent_tasks_pairwise ctx _ _ _ _ hvs hve hey, ?_⟩
            intro a ha b hb
            obtain ⟨d, hdm, rfl⟩ := List.mem_map.mp hb
            apply rcRel_of_ap_ne
            rw [rentItem_ap]
            exact hdisj a ha ap hrc

/-- The apartments loop keeps the whole accumulated list collision-free when
the processed row codes are pairwise distinct. -/
theorem processRows_pairwise (pyset : List Date → List Date) (ctx : GenCtx)
    (hvs : validCal ctx.startD = true) (hve : validCal ctx.endD = true)
    (hey : ctx.endD.y ≤ 9998) :
    ∀ (rows : List (List String)) (acc : List Task),
      (rows.filterMap (rowCode ctx)).Nodup →
      (∀ t ∈ acc, ∀ c ∈ rows.filterMap (rowCode ctx), t.ap_code ≠ c) →
      acc.Pairwise rcRel →
      (rows.foldl (processRow pyset ctx) acc).Pairwise rcRel := by
  intro rows
  induction rows with
  | nil => intro acc _ _ h; exact h
  | cons row rs ih =>
    intro acc hnd hdisj hacc
    rw [List.foldl_cons]
    cases hrc : rowCode ctx row with
    | none =>
      have heq : processRow pyset ctx acc row = acc := by
        unfold processRow
        unfold rowCode at hrc
        cases hc : row.get? ctx.apCodeCol with
        | none => rfl
        | some ap =>
          rw [hc] at hrc
          dsimp only at hrc
          dsimp only
          have hap : ap = "" := by
            by_contra hne
            rw [if_neg hne] at hrc
            exact Option.noConfusion hrc
          rw [if_pos hap]
      rw [heq]
      have hfm : (row :: rs).filterMap (rowCode ctx) = rs.filterMap (rowCode ctx) := by
        rw [List.filterMap_cons, hrc]
      refine ih acc ?_ ?_ hacc
      · rw [← hfm]; exact hnd
      · intro t ht c hcmem
        exact hdisj t ht c (by rw [hfm]; exact hcmem)
    | some ap =>
      have hfm : (row :: rs).filterMap (rowCode ctx) = ap :: rs.filterMap (rowCode ctx) := by
        rw [List.filterMap_cons, hrc]
      rw [hfm] at hnd
      rw [List.nodup_cons] at hnd
      obtain ⟨hapnot, hndrs⟩ := hnd
      have hstep : (processRow pyset ctx acc row).Pairwise rcRel := by
        refine processRow_pairwise pyset ctx hvs hve hey acc row ?_ hacc
        intro t ht c hceq
        rw [hrc] at hceq
        injection hceq with hcap
        subst hcap
        exact hdisj t ht ap (by rw [hfm]; exact List.mem_cons_self _ _)
      refine ih _ hndrs ?_ hstep
      intro t ht c hcmem
      rcases processRow_sound ht with htacc | ⟨ap', hrc', htap, _, _⟩
      · exact hdisj t htacc c (by rw [hfm]; exact List.mem_cons_of_mem _ hcmem)
      · rw [hrc] at hrc'
        injection hrc' with hapeq
        intro hEq
        rw [htap, ← hapeq] at hEq
        rw [hEq] at hapnot
        exact hapnot hcmem

/-- C3 counterexample: the claim promises that no two tasks of the generated
list ever share the (apartment_code, due_date) key — in particular that a rent
task and a Check-out task never collide.  With a contract starting on the 15th
and contract END 15-06-2024 inside the June window, `generate_list` emits both
an Unpaid rent task and a Check-out task keyed ("A1", 2024-06-15). -/
theorem C3_counterexample :
    generate_list pysetModel sheetsC3 winS winE [] = .ok outC3 ∧
    outC3.countP (fun t => decide (pairKey t = ("A1", some "2024-06-15"))) = 2 :=
  ⟨by rfl, by decide⟩

/-- C3 (amended): after a successful `generate_list` over apartment rows with
pairwise-distinct codes and a calendar-representable window, two distinct
tasks of the resulting list CAN share the (apartment_code, due_date) key, but
then exactly one of the two has status Check-out: rent tasks of one row carry
pairwise-distinct due-date strings, the guard emits at most one Check-out task
per apartment, distinct rows never share a code, the merge step changes no key
or status, and re-added manual tasks have codes absent from the rest. -/
theorem C3_uniqueness_amended (pyset : List Date → List Date) (sheets : Sheets)
    (s e : Date) (todo out : List Task) (ctx : GenCtx)
    (hctx : genCtx? sheets s e = .ok (some ctx))
    (hvs : validCal ctx.startD = true) (hve : validCal ctx.endD = true)
    (hey : ctx.endD.y ≤ 9998)
    (hnd : (ctx.apRows.filterMap (rowCode ctx)).Nodup)
    (hout : generate_list pyset sheets s e todo = .ok out) :
    out.Pairwise rcRel := by
  rw [generate_list] at hout
  rw [hctx] at hout
  simp only [Except.ok.injEq] at hout
  subst hout
  rw [List.Perm.pairwise_iff (fun hxy => rcRel_symm hxy) (sortList_perm _)]
  refine addManuals_pairwise (fun a b hab => rcRel_of_ap_ne hab) _ _ ?_
  refine mergeOld_pairwise_rcRel todo ?_
  unfold derivedRows
  refine processRows_pairwise pyset ctx hvs hve hey ctx.apRows [] hnd ?_ List.Pairwise.nil
  intro t ht c hcmem
  exact absurd ht (List.not_mem_nil t)

/-- C3 witness: the amended collision discipline on the counterexample run. -/
theorem C3_uniqueness_witness : outC3.Pairwise rcRel :=
  C3_uniqueness_amended pysetModel sheetsC3 winS winE [] outC3
    ⟨winS, winE, [], [], [["A1", "15-01-2024", "15-06-2024", "R", ""]], 0, 1, 2, 3, 4⟩
    (by rfl) (by decide) (by decide) (by decide) (by decide) (by rfl)

/-! ### Claim C4: behaviour of an immediate second regeneration -/

/-- Derived tasks of a pass are never manual and carry pristine mutable
fields. -/
theorem derivedRows_sound {pyset : List Date → List Date} {ctx : GenCtx} {t : Task}
    (h : t ∈ derivedRows pyset ctx) :
    t.manual = false ∧ mutFields t = (⟨false, false, false, false⟩, "", none) := by
  unfold derivedRows at h
  suffices hgen : ∀ (rows : List (List String)) (acc : List Task),
      (∀ x ∈ acc, x.manual = false ∧ mutFields x = (⟨false, false, false, false⟩, "", none)) →
      ∀ x ∈ rows.foldl (processRow pyset ctx) acc,
        x.manual = false ∧ mutFields x = (⟨false, false, false, false⟩, "", none) by
    exact hgen ctx.apRows [] (fun x hx => absurd hx (List.not_mem_nil x)) t h
  intro rows
  induction rows with
  | nil => intro acc hacc x hx; exact hacc x hx
  | cons row rs ih =>
    intro acc hacc x hx
    rw [List.foldl_cons] at hx
    refine ih _ ?_ x hx
    intro y hy
    rcases processRow_sound hy with hyacc | ⟨ap, _, _, hman, hmut⟩
    · exact hacc y hyacc
    · exact ⟨hman, hmut⟩

/-- Two tasks with the same concatenated key and pristine mutable fields pick
up identical mutable fields from the merge. -/
theorem mergeOld_mut_eq_of_key {old : List Task} {d₁ d₂ : Task}
    (hk : concatKey d₁ = concatKey d₂)
    (h₁ : mutFields d₁ = (⟨false, false, false, false⟩, "", none))
    (h₂ : mutFields d₂ = (⟨false, false, false, false⟩, "", none)) :
    mutFields (mergeOld old d₁) = mutFields (mergeOld old d₂) := by
  rw [mergeOld_mut, mergeOld_mut, hk]
  cases lookupOld old (concatKey d₂) with
  | none => rw [h₁, h₂]
  | some o => rfl

/-- Structure of a successful regeneration: up to the final sort, the result
is the merged derived block followed by a block of re-added manual old items
with apartment codes fresh for the whole list. -/
theorem generate_list_shape {pyset : List Date → List Date} {sheets : Sheets} {s e : Date}
    {todo out : List Task} {ctx : GenCtx}
    (hctx : genCtx? sheets s e = .ok (some ctx))
    (hout : generate_list pyset sheets s e todo = .ok out) :
    ∃ S : List Task,
      (∀ t, t ∈ out ↔ t ∈ (derivedRows pyset ctx).map (mergeOld todo) ∨ t ∈ S) ∧
      (∀ x ∈ S, x ∈ oldItems todo ∧ x.manual = true ∧
        ∀ y ∈ (derivedRows pyset ctx).map (mergeOld todo), y.ap_code ≠ x.ap_code) ∧
      S.Pairwise (fun a b => a.ap_code ≠ b.ap_code) := by
  rw [generate_list] at hout
  rw [hctx] at hout
  simp only [Except.ok.injEq] at hout
  subst hout
  obtain ⟨S, hEq, hProp, hPW⟩ :=
    addManuals_shape ((derivedRows pyset ctx).map (mergeOld todo)) (oldItems todo)
  refine ⟨S, ?_, hProp, hPW⟩
  intro t
  rw [mem_sortList, hEq, List.mem_append]

theorem ap_ne_symm : Symmetric (fun a b : Task => a.ap_code ≠ b.ap_code) :=
  fun _ _ h e => h e.symm

/-- C4 counterexample: the claim promises a second `generate_list` over the
same snapshot reproduces the same (apartment_code, due_date) key set and the
same mutable fields per key.  A manual task keyed "AB2024" ++ "-12-15" (the
code validates neither apartment codes nor date strings) collides on the
concatenated dict key with the derived rent task ("AB", "2024-12-15"): the
first call keeps both tasks, but in the sorted result the derived task becomes
the dict winner, so the second call silently drops the manual task — the key
("AB2024", "-12-15") is present after call one and gone after call two. -/
theorem C4_counterexample :
    generate_list pysetModel sheetsC4 winS4 winE4 [taskM4] = .ok outC4a ∧
    generate_list pysetModel sheetsC4 winS4 winE4 outC4a = .ok outC4b ∧
    ("AB2024", some "-12-15") ∈ outC4a.map pairKey ∧
    ("AB2024", some "-12-15") ∉ outC4b.map pairKey := by
  refine ⟨by rfl, by rfl, by decide, by decide⟩

/-- C4 (amended): an immediate second `generate_list` over the same snapshot
preserves the pair-key set and the per-key mutable fields, provided the old
list's concatenated keys are pairwise distinct and no old task collides on the
concatenated key with a derived task of a different (code, due_date) pair.
The proof threads the dict semantics through both calls: derived keys keep
their call-one winner's mutable fields, and every re-added manual task remains
the unique holder of its key, hence its own dict winner, in the second call. -/
theorem C4_idempotence_amended (pyset : List Date → List Date) (sheets : Sheets)
    (s e : Date) (todo out1 out2 : List Task)
    (hnd : (todo.map concatKey).Nodup)
    (hinj : ∀ t ∈ todo, ∀ d ∈ derivedList pyset sheets s e,
      concatKey t = concatKey d → pairKey t = pairKey d)
    (h1 : generate_list pyset sheets s e todo = .ok out1)
    (h2 : generate_list pyset sheets s e out1 = .ok out2) :
    (∀ k, k ∈ out1.map pairKey ↔ k ∈ out2.map pairKey) ∧
    (∀ t₁ ∈ out1, ∀ t₂ ∈ out2, pairKey t₁ = pairKey t₂ → mutFields t₁ = mutFields t₂) := by
  cases hctx : genCtx? sheets s e with
  | error err =>
    rw [generate_list] at h1
    rw [hctx] at h1
    exact absurd h1 (by simp)
  | ok o =>
    cases o with
    | none =>
      rw [generate_list] at h1 h2
      rw [hctx] at h1 h2
      simp only [Except.ok.injEq] at h1 h2
      subst h1
      subst h2
      refine ⟨fun k => Iff.rfl, ?_⟩
      intro t₁ ht₁ t₂ ht₂ hp
      rw [List.inj_on_of_nodup_map hnd ht₁ ht₂ (concatKey_eq_of_pairKey_eq hp)]
    | some ctx =>
      have hDL : derivedList pyset sheets s e = derivedRows pyset ctx := by
        unfold derivedList
        rw [hctx]
      rw [hDL] at hinj
      have h2raw := h2
      rw [generate_list] at h2raw
      rw [hctx] at h2raw
      simp only [Except.ok.injEq] at h2raw
      obtain ⟨S₁, hiff₁, hS₁, hPW₁⟩ := generate_list_shape hctx h1
      obtain ⟨S₂, hiff₂, hS₂, hPW₂⟩ := generate_list_shape hctx h2
      have hSap : ∀ M ∈ S₁, ∀ d ∈ derivedRows pyset ctx, d.ap_code ≠ M.ap_code := by
        intro M hM d hd
        have h := (hS₁ M hM).2.2 (mergeOld todo d) (List.mem_map_of_mem _ hd)
        rw [(mergeOld_fields todo d).1] at h
        exact h
      have hSuniq : ∀ M ∈ S₁, ∀ x ∈ out1, concatKey x = concatKey M → x = M := by
        intro M hM x hx hk
        rcases (hiff₁ x).mp hx with hA | hS
        · exfalso
          obtain ⟨d, hd, rfl⟩ := List.mem_map.mp hA
          rw [mergeOld_concatKey] at hk
          have hMtodo : M ∈ todo := (oldItems_spec (hS₁ M hM).1).1
          have hpair := hinj M hMtodo d hd hk.symm
          exact hSap M hM d hd (congrArg Prod.fst hpair).symm
        · have e1 := (oldItems_spec (hS₁ x hS).1).2
          have e2 := (oldItems_spec (hS₁ M hM).1).2
          rw [hk] at e1
          exact Option.some.inj (e1.symm.trans e2)
      have hwin : ∀ d ∈ derivedRows pyset ctx, ∃ w,
          lookupOld out1 (concatKey d) = some w ∧
          mutFields w = mutFields (mergeOld todo d) := by
        intro d hd
        have hmem1 : mergeOld todo d ∈ out1 :=
          (hiff₁ _).mpr (Or.inl (List.mem_map_of_mem _ hd))
        have hs : (lookupOld out1 (concatKey d)).isSome = true := by
          have h := lookupOld_isSome hmem1
          rw [mergeOld_concatKey] at h
          exact h
        obtain ⟨w, hw⟩ := Option.isSome_iff_exists.mp hs
        obtain ⟨hwm, hwk⟩ := lookupOld_mem hw
        refine ⟨w, hw, ?_⟩
        rcases (hiff₁ w).mp hwm with hA | hS
        · obtain ⟨d', hd', rfl⟩ := List.mem_map.mp hA
          rw [mergeOld_concatKey] at hwk
          exact mergeOld_mut_eq_of_key hwk (derivedRows_sound hd').2 (derivedRows_sound hd).2
        · exfalso
          have hMtodo : w ∈ todo := (oldItems_spec (hS₁ w hS).1).1
          have hpair := hinj w hMtodo d hd hwk
          exact hSap w hS d hd (congrArg Prod.fst hpair).symm
      have hre : ∀ M ∈ S₁, M ∈ out2 := by
        intro M hM
        rw [← h2raw, mem_sortList]
        refine addManuals_complete ?_ (hS₁ M hM).2.1 ?_ ?_
        · have hMout1 : M ∈ out1 := (hiff₁ M).mpr (Or.inr hM)
          exact mem_oldItems hMout1
            (lookupOld_eq_of_unique hMout1 rfl (fun x hx hk => hSuniq M hM x hx hk))
        · intro y hy
          obtain ⟨d, hd, rfl⟩ := List.mem_map.mp hy
          rw [(mergeOld_fields out1 d).1]
          exact hSap M hM d hd
        · intro o hoi hapeq
          have ho1 : o ∈ out1 := (oldItems_spec hoi).1
          rcases (hiff₁ o).mp ho1 with hA | hS
          · exfalso
            obtain ⟨d, hd, rfl⟩ := List.mem_map.mp hA
            rw [(mergeOld_fields todo d).1] at hapeq
            exact hSap M hM d hd hapeq
          · by_cases heq : o = M
            · exact heq
            · exact absurd hapeq (hPW₁.forall ap_ne_symm hS hM heq)
      have hS₂S₁ : ∀ M ∈ S₂, M ∈ S₁ := by
        intro M hM
        have hMout1 : M ∈ out1 := (oldItems_spec (hS₂ M hM).1).1
        rcases (hiff₁ M).mp hMout1 with hA | hS
        · exfalso
          obtain ⟨d, hd, rfl⟩ := List.mem_map.mp hA
          have hman := (hS₂ _ hM).2.1
          rw [(mergeOld_fields todo d).2.2.2, (derivedRows_sound hd).1] at hman
          exact Bool.false_ne_true hman
        · exact hS
      constructor
      · intro k
        constructor
        · intro hk
          obtain ⟨t₁, ht₁, rfl⟩ := List.mem_map.mp hk
          rcases (hiff₁ t₁).mp ht₁ with hA | hS
          · obtain ⟨d, hd, rfl⟩ := List.mem_map.mp hA
            refine List.mem_map.mpr ⟨mergeOld out1 d,
              (hiff₂ _).mpr (Or.inl (List.mem_map_of_mem _ hd)), ?_⟩
            rw [mergeOld_pairKey, mergeOld_pairKey]
          · exact List.mem_map.mpr ⟨t₁, hre t₁ hS, rfl⟩
        · intro hk
          obtain ⟨t₂, ht₂, rfl⟩ := List.mem_map.mp hk
          rcases (hiff₂ t₂).mp ht₂ with hA | hS
          · obtain ⟨d, hd, rfl⟩ := List.mem_map.mp hA
            refine List.mem_map.mpr ⟨mergeOld todo d,
              (hiff₁ _).mpr (Or.inl (List.mem_map_of_mem _ hd)), ?_⟩
            rw [mergeOld_pairKey, mergeOld_pairKey]
          · exact List.mem_map.mpr ⟨t₂, (hiff₁ t₂).mpr (Or.inr (hS₂S₁ t₂ hS)), rfl⟩
      · intro t₁ ht₁ t₂ ht₂ hp
        rcases (hiff₁ t₁).mp ht₁ with hA₁ | hSm₁
        · obtain ⟨d₁, hd₁, rfl⟩ := List.mem_map.mp hA₁
          rcases (hiff₂ t₂).mp ht₂ with hA₂ | hSm₂
          · obtain ⟨d₂, hd₂, rfl⟩ := List.mem_map.mp hA₂
            have hkd : concatKey d₁ = concatKey d₂ := by
              have h := concatKey_eq_of_pairKey_eq hp
              rw [mergeOld_concatKey, mergeOld_concatKey] at h
              exact h
            obtain ⟨w, hw, hwmut⟩ := hwin d₂ hd₂
            have hmut₂ : mutFields (mergeOld out1 d₂) = mutFields w := by
              rw [mergeOld_mut, hw]
            rw [hmut₂, hwmut]
            exact mergeOld_mut_eq_of_key hkd (derivedRows_sound hd₁).2 (derivedRows_sound hd₂).2
          · exfalso
            have hM₂ : t₂ ∈ S₁ := hS₂S₁ t₂ hSm₂
            have hap : (mergeOld todo d₁).ap_code = t₂.ap_code := congrArg Prod.fst hp
            rw [(mergeOld_fields todo d₁).1] at hap
            exact hSap t₂ hM₂ d₁ hd₁ hap
        · rcases (hiff₂ t₂).mp ht₂ with hA₂ | hSm₂
          · exfalso
            obtain ⟨d₂, hd₂, rfl⟩ := List.mem_map.mp hA₂
            have hap : t₁.ap_code = (mergeOld out1 d₂).ap_code := congrArg Prod.fst hp
            rw [(mergeOld_fields out1 d₂).1] at hap
            exact hSap t₁ hSm₁ d₂ hd₂ hap.symm
          · have hM₂ : t₂ ∈ S₁ := hS₂S₁ t₂ hSm₂
            have hap : t₁.ap_code = t₂.ap_code := congrArg Prod.fst hp
            by_cases heq : t₁ = t₂
            · rw [heq]
            · exact absurd hap (hPW₁.forall ap_ne_symm hSm₁ hM₂ heq)

/-- C4 witness: a second regeneration from an empty old list reproduces keys
and mutable fields. -/
theorem C4_idempotence_witness :
    ("AB", some "2024-12-15") ∈ (runGen pysetModel sheetsC4 winS4 winE4
      (runGen pysetModel sheetsC4 winS4 winE4 [])).map pairKey :=
  ((C4_idempotence_amended pysetModel sheetsC4 winS4 winE4 []
    (runGen pysetModel sheetsC4 winS4 winE4 [])
    (runGen pysetModel sheetsC4 winS4 winE4 (runGen pysetModel sheetsC4 winS4 winE4 []))
    (by decide)
    (fun t ht => absurd ht (List.not_mem_nil t))
    (by rfl) (by rfl)).1 ("AB", some "2024-12-15")).mp (by decide)

end Todo
